import Mathlib

/-!
Verification development for the DeepSeek-X workflow core.

Shallow embedding of the repository's workflow orchestrator and its helpers:
src/workflow/workflow_info.py (the workflow state tracker),
src/workflow/workflow.py (the orchestrator and the per-phase executors),
src/combinator/deepseek_openaicompatible_combinator.py (the non-streaming
result aggregator), src/clients/deepseek_client.py (the reasoning-backend
stream decoder) and src/clients/openai_compatible_client.py (the
summarization-backend stream decoder).

Python strings are modelled as `String` (or `List Char` where byte-level
splitting matters), Python lists as `List`, dictionaries with a fixed key set
as structures whose optional keys are `Option` fields, and dictionaries used
as maps as association lists.  Wall-clock fields (`start_time`, `end_time`,
`duration`) are not modelled: no property below depends on them.
-/

namespace DeepSeekX

/-- Python whitespace as `str.strip()` removes it. -/
def isPyWhitespace (c : Char) : Bool :=
  c = ' ' ∨ c = '\t' ∨ c = '\n' ∨ c = '\r' ∨ c = '\x0b' ∨ c = '\x0c'

/-- Whitespace trimming on a character list, both ends. -/
def pyStripChars (cs : List Char) : List Char :=
  ((cs.dropWhile isPyWhitespace).reverse.dropWhile isPyWhitespace).reverse

/-- Model of Python `str.strip()` as used in these sources: trim whitespace
from both ends. -/
def pyStrip (s : String) : String := String.mk (pyStripChars s.data)

/-- Truthiness of a Python string: non-empty. -/
def pyTruthy (s : String) : Bool := s ≠ ""

/-- Truthiness of an optional Python string: `None` and `""` are falsy. -/
def pyTruthyOpt : Option String → Bool
  | none => false
  | some s => pyTruthy s

/-- Concatenation of a list of strings, in order. -/
def strConcat : List String → String
  | [] => ""
  | s :: rest => s ++ strConcat rest

/-!
## Workflow state tracker — `WorkflowInfo` (src/workflow/workflow_info.py)

The `self.info` dictionary of `WorkflowInfo.__init__` (lines 10-32), with the
wall-clock fields omitted.  The `errors` dictionary is an association list.
-/

@[ext]
structure WorkflowInfo where
  success : Bool
  phases_executed : List String
  phases_succeeded : List String
  phases_failed : List String
  error : Option String
  reasoning_obtained : Bool
  reasoning_method : Option String
  reasoning_content : Option String
  content_obtained : Bool
  content : Option String
  content_method : Option String
  final_answer_obtained : Bool
  final_answer_method : Option String
  retries_phase1 : Nat
  retries_phase2 : Nat
  errors : List (String × String)
  deriving Repr, DecidableEq

/-- Default values of the info dictionary (`WorkflowInfo.__init__`). -/
def WorkflowInfo.init : WorkflowInfo :=
  { success := false
    phases_executed := []
    phases_succeeded := []
    phases_failed := []
    error := none
    reasoning_obtained := false
    reasoning_method := none
    reasoning_content := none
    content_obtained := false
    content := none
    content_method := none
    final_answer_obtained := false
    final_answer_method := none
    retries_phase1 := 0
    retries_phase2 := 0
    errors := [] }

/-- Dictionary assignment `m[k] = v` on an association list: overwrite the
existing binding, else append a new one. -/
def updateAssoc (m : List (String × String)) (k v : String) :
    List (String × String) :=
  if m.any (fun p => p.1 = k) then
    m.map (fun p => if p.1 = k then (k, v) else p)
  else m ++ [(k, v)]

/-- Method `mark_phase_executed` (workflow_info.py lines 47-50): append the
phase to `phases_executed` if not already present. -/
def WorkflowInfo.mark_phase_executed (wi : WorkflowInfo) (phase : String) :
    WorkflowInfo :=
  { wi with phases_executed :=
      if phase ∈ wi.phases_executed then wi.phases_executed
      else wi.phases_executed ++ [phase] }

/-- Method `mark_phase_succeeded` (workflow_info.py lines 52-58): first
`mark_phase_executed`, then append to `phases_succeeded` if absent and remove
the first occurrence from `phases_failed` if present. -/
def WorkflowInfo.mark_phase_succeeded (wi : WorkflowInfo) (phase : String) :
    WorkflowInfo :=
  let wi := wi.mark_phase_executed phase
  { wi with
    phases_succeeded :=
      if phase ∈ wi.phases_succeeded then wi.phases_succeeded
      else wi.phases_succeeded ++ [phase]
    phases_failed :=
      if phase ∈ wi.phases_failed then wi.phases_failed.erase phase
      else wi.phases_failed }

/-- Method `mark_phase_failed` (workflow_info.py lines 60-68): first
`mark_phase_executed`, then append to `phases_failed` if absent, remove the
first occurrence from `phases_succeeded` if present, and record the error
message when it is truthy. -/
def WorkflowInfo.mark_phase_failed (wi : WorkflowInfo) (phase : String)
    (error_msg : Option String) : WorkflowInfo :=
  let wi := wi.mark_phase_executed phase
  { wi with
    phases_failed :=
      if phase ∈ wi.phases_failed then wi.phases_failed
      else wi.phases_failed ++ [phase]
    phases_succeeded :=
      if phase ∈ wi.phases_succeeded then wi.phases_succeeded.erase phase
      else wi.phases_succeeded
    errors :=
      if pyTruthyOpt error_msg then
        updateAssoc wi.errors phase (error_msg.getD "")
      else wi.errors }

/-- Method `update_reasoning` (workflow_info.py lines 70-74). -/
def WorkflowInfo.update_reasoning (wi : WorkflowInfo) (c m : String) :
    WorkflowInfo :=
  { wi with reasoning_content := some c
            reasoning_obtained := pyTruthy (pyStrip c)
            reasoning_method := some m }

/-- Method `set_content` (workflow_info.py lines 108-111). -/
def WorkflowInfo.set_content (wi : WorkflowInfo) (c : String) : WorkflowInfo :=
  { wi with content := some c, content_obtained := pyTruthy (pyStrip c) }

/-- Method `set_reasoning_method` (workflow_info.py lines 113-115). -/
def WorkflowInfo.set_reasoning_method (wi : WorkflowInfo) (m : String) :
    WorkflowInfo :=
  { wi with reasoning_method := some m }

/-- Method `get_reasoning_content` (workflow_info.py lines 104-106). -/
def WorkflowInfo.get_reasoning_content (wi : WorkflowInfo) : Option String :=
  wi.reasoning_content

/-- Method `get_content` (workflow_info.py lines 117-119). -/
def WorkflowInfo.get_content (wi : WorkflowInfo) : Option String :=
  wi.content

/-- Method `finalize` (workflow_info.py lines 96-102), with the wall-clock
stamping omitted; the error message is recorded only when truthy. -/
def WorkflowInfo.finalize (wi : WorkflowInfo) (success : Bool)
    (error_msg : Option String) : WorkflowInfo :=
  let wi := { wi with success := success }
  if pyTruthyOpt error_msg then { wi with error := error_msg } else wi

/-!
## Sequences of `mark_phase_*` calls (claims C6 and C10)
-/

/-- One `mark_phase_*` call on a `WorkflowInfo`. -/
inductive MarkOp where
  | executed (phase : String)
  | succeeded (phase : String)
  | failed (phase : String) (error_msg : Option String)
  deriving Repr, DecidableEq

def applyMarkOp (wi : WorkflowInfo) : MarkOp → WorkflowInfo
  | .executed p => wi.mark_phase_executed p
  | .succeeded p => wi.mark_phase_succeeded p
  | .failed p e => wi.mark_phase_failed p e

/-- Apply a sequence of `mark_phase_*` calls in order. -/
def applyMarkOps (wi : WorkflowInfo) (ops : List MarkOp) : WorkflowInfo :=
  ops.foldl applyMarkOp wi

/-- Tracker invariant on the three phase lists: no duplicates, the succeeded
and failed lists are disjoint, and both are contained in the executed list. -/
def phasesInvariant (wi : WorkflowInfo) : Prop :=
  wi.phases_executed.Nodup ∧ wi.phases_succeeded.Nodup ∧
  wi.phases_failed.Nodup ∧
  (∀ p, ¬(p ∈ wi.phases_succeeded ∧ p ∈ wi.phases_failed)) ∧
  (∀ p, p ∈ wi.phases_succeeded → p ∈ wi.phases_executed) ∧
  (∀ p, p ∈ wi.phases_failed → p ∈ wi.phases_executed)

theorem phasesInvariant_init : phasesInvariant WorkflowInfo.init := by
  refine ⟨List.nodup_nil, List.nodup_nil, List.nodup_nil, ?_, ?_, ?_⟩ <;>
    intro p <;> simp [WorkflowInfo.init]

theorem mark_phase_executed_succ (wi : WorkflowInfo) (p : String) :
    (wi.mark_phase_executed p).phases_succeeded = wi.phases_succeeded := rfl

theorem mark_phase_executed_failed (wi : WorkflowInfo) (p : String) :
    (wi.mark_phase_executed p).phases_failed = wi.phases_failed := rfl

theorem mark_phase_executed_exec_eq (wi : WorkflowInfo) (p : String) :
    (wi.mark_phase_executed p).phases_executed =
      if p ∈ wi.phases_executed then wi.phases_executed
      else wi.phases_executed ++ [p] := rfl

theorem mem_mark_phase_executed (wi : WorkflowInfo) (p q : String) :
    q ∈ (wi.mark_phase_executed p).phases_executed ↔
      q ∈ wi.phases_executed ∨ q = p := by
  rw [mark_phase_executed_exec_eq]
  by_cases h : p ∈ wi.phases_executed
  · rw [if_pos h]
    constructor
    · exact fun hq => Or.inl hq
    · rintro (hq | rfl)
      · exact hq
      · exact h
  · rw [if_neg h]
    simp [List.mem_append]

theorem mem_mark_phase_executed_self (wi : WorkflowInfo) (p : String) :
    p ∈ (wi.mark_phase_executed p).phases_executed :=
  (mem_mark_phase_executed wi p p).mpr (Or.inr rfl)

theorem nodup_append_singleton {l : List String} {p : String}
    (hl : l.Nodup) (hp : p ∉ l) : (l ++ [p]).Nodup := by
  simp [List.nodup_append, hl, hp]

theorem mark_phase_succeeded_succ_eq (wi : WorkflowInfo) (p : String) :
    (wi.mark_phase_succeeded p).phases_succeeded =
      if p ∈ wi.phases_succeeded then wi.phases_succeeded
      else wi.phases_succeeded ++ [p] := by
  have h : (wi.mark_phase_succeeded p).phases_succeeded =
      if p ∈ (wi.mark_phase_executed p).phases_succeeded
      then (wi.mark_phase_executed p).phases_succeeded
      else (wi.mark_phase_executed p).phases_succeeded ++ [p] := rfl
  rw [h, mark_phase_executed_succ]

theorem mark_phase_succeeded_failed_eq (wi : WorkflowInfo) (p : String) :
    (wi.mark_phase_succeeded p).phases_failed =
      if p ∈ wi.phases_failed then wi.phases_failed.erase p
      else wi.phases_failed := by
  have h : (wi.mark_phase_succeeded p).phases_failed =
      if p ∈ (wi.mark_phase_executed p).phases_failed
      then (wi.mark_phase_executed p).phases_failed.erase p
      else (wi.mark_phase_executed p).phases_failed := rfl
  rw [h, mark_phase_executed_failed]

theorem mark_phase_succeeded_exec_eq (wi : WorkflowInfo) (p : String) :
    (wi.mark_phase_succeeded p).phases_executed =
      (wi.mark_phase_executed p).phases_executed := rfl

theorem mark_phase_failed_failed_eq (wi : WorkflowInfo) (p : String)
    (e : Option String) :
    (wi.mark_phase_failed p e).phases_failed =
      if p ∈ wi.phases_failed then wi.phases_failed
      else wi.phases_failed ++ [p] := by
  have h : (wi.mark_phase_failed p e).phases_failed =
      if p ∈ (wi.mark_phase_executed p).phases_failed
      then (wi.mark_phase_executed p).phases_failed
      else (wi.mark_phase_executed p).phases_failed ++ [p] := rfl
  rw [h, mark_phase_executed_failed]

theorem mark_phase_failed_succ_eq (wi : WorkflowInfo) (p : String)
    (e : Option String) :
    (wi.mark_phase_failed p e).phases_succeeded =
      if p ∈ wi.phases_succeeded then wi.phases_succeeded.erase p
      else wi.phases_succeeded := by
  have h : (wi.mark_phase_failed p e).phases_succeeded =
      if p ∈ (wi.mark_phase_executed p).phases_succeeded
      then (wi.mark_phase_executed p).phases_succeeded.erase p
      else (wi.mark_phase_executed p).phases_succeeded := rfl
  rw [h, mark_phase_executed_succ]

theorem mark_phase_failed_exec_eq (wi : WorkflowInfo) (p : String)
    (e : Option String) :
    (wi.mark_phase_failed p e).phases_executed =
      (wi.mark_phase_executed p).phases_executed := rfl

theorem phasesInvariant_mark_executed (wi : WorkflowInfo) (p : String)
    (h : phasesInvariant wi) : phasesInvariant (wi.mark_phase_executed p) := by
  obtain ⟨he, hs, hf, hd, hse, hfe⟩ := h
  refine ⟨?_, ?_, ?_, ?_, ?_, ?_⟩
  · rw [mark_phase_executed_exec_eq]
    by_cases hp : p ∈ wi.phases_executed
    · rw [if_pos hp]; exact he
    · rw [if_neg hp]; exact nodup_append_singleton he hp
  · rw [mark_phase_executed_succ]; exact hs
  · rw [mark_phase_executed_failed]; exact hf
  · intro q
    rw [mark_phase_executed_succ, mark_phase_executed_failed]
    exact hd q
  · intro q hq
    rw [mark_phase_executed_succ] at hq
    exact (mem_mark_phase_executed wi p q).mpr (Or.inl (hse q hq))
  · intro q hq
    rw [mark_phase_executed_failed] at hq
    exact (mem_mark_phase_executed wi p q).mpr (Or.inl (hfe q hq))

theorem phasesInvariant_mark_succeeded (wi : WorkflowInfo) (p : String)
    (h : phasesInvariant wi) : phasesInvariant (wi.mark_phase_succeeded p) := by
  obtain ⟨he, hs, hf, hd, hse, hfe⟩ := h
  have hpe := mem_mark_phase_executed_self wi p
  have hexeq := mark_phase_succeeded_exec_eq wi p
  refine ⟨?_, ?_, ?_, ?_, ?_, ?_⟩
  · rw [hexeq]
    exact (phasesInvariant_mark_executed wi p ⟨he, hs, hf, hd, hse, hfe⟩).1
  · rw [mark_phase_succeeded_succ_eq]
    by_cases hps : p ∈ wi.phases_succeeded
    · rw [if_pos hps]; exact hs
    · rw [if_neg hps]; exact nodup_append_singleton hs hps
  · rw [mark_phase_succeeded_failed_eq]
    by_cases hpf : p ∈ wi.phases_failed
    · rw [if_pos hpf]; exact hf.erase p
    · rw [if_neg hpf]; exact hf
  · intro q
    rw [mark_phase_succeeded_succ_eq, mark_phase_succeeded_failed_eq]
    rintro ⟨hq1, hq2⟩
    by_cases hps : p ∈ wi.phases_succeeded <;>
      by_cases hpf : p ∈ wi.phases_failed
    · rw [if_pos hps] at hq1; rw [if_pos hpf] at hq2
      exact hd q ⟨hq1, List.mem_of_mem_erase hq2⟩
    · rw [if_pos hps] at hq1; rw [if_neg hpf] at hq2
      exact hd q ⟨hq1, hq2⟩
    · rw [if_neg hps] at hq1; rw [if_pos hpf] at hq2
      rcases List.mem_append.mp hq1 with hq1 | hq1
      · exact hd q ⟨hq1, List.mem_of_mem_erase hq2⟩
      · have hq1' : q = p := by simpa using hq1
        subst hq1'
        exact (hf.mem_erase_iff.mp hq2).1 rfl
    · rw [if_neg hps] at hq1; rw [if_neg hpf] at hq2
      rcases List.mem_append.mp hq1 with hq1 | hq1
      · exact hd q ⟨hq1, hq2⟩
      · have hq1' : q = p := by simpa using hq1
        subst hq1'
        exact hpf hq2
  · intro q hq
    rw [mark_phase_succeeded_succ_eq] at hq
    rw [hexeq]
    by_cases hps : p ∈ wi.phases_succeeded
    · rw [if_pos hps] at hq
      exact (mem_mark_phase_executed wi p q).mpr (Or.inl (hse q hq))
    · rw [if_neg hps] at hq
      rcases List.mem_append.mp hq with hq | hq
      · exact (mem_mark_phase_executed wi p q).mpr (Or.inl (hse q hq))
      · have hq' : q = p := by simpa using hq
        subst hq'
        exact hpe
  · intro q hq
    rw [mark_phase_succeeded_failed_eq] at hq
    rw [hexeq]
    by_cases hpf : p ∈ wi.phases_failed
    · rw [if_pos hpf] at hq
      exact (mem_mark_phase_executed wi p q).mpr
        (Or.inl (hfe q (List.mem_of_mem_erase hq)))
    · rw [if_neg hpf] at hq
      exact (mem_mark_phase_executed wi p q).mpr (Or.inl (hfe q hq))

theorem phasesInvariant_mark_failed (wi : WorkflowInfo) (p : String)
    (e : Option String) (h : phasesInvariant wi) :
    phasesInvariant (wi.mark_phase_failed p e) := by
  obtain ⟨he, hs, hf, hd, hse, hfe⟩ := h
  have hpe := mem_mark_phase_executed_self wi p
  have hexeq := mark_phase_failed_exec_eq wi p e
  refine ⟨?_, ?_, ?_, ?_, ?_, ?_⟩
  · rw [hexeq]
    exact (phasesInvariant_mark_executed wi p ⟨he, hs, hf, hd, hse, hfe⟩).1
  · rw [mark_phase_failed_succ_eq]
    by_cases hps : p ∈ wi.phases_succeeded
    · rw [if_pos hps]; exact hs.erase p
    · rw [if_neg hps]; exact hs
  · rw [mark_phase_failed_failed_eq]
    by_cases hpf : p ∈ wi.phases_failed
    · rw [if_pos hpf]; exact hf
    · rw [if_neg hpf]; exact nodup_append_singleton hf hpf
  · intro q
    rw [mark_phase_failed_succ_eq, mark_phase_failed_failed_eq]
    rintro ⟨hq1, hq2⟩
    by_cases hps : p ∈ wi.phases_succeeded <;>
      by_cases hpf : p ∈ wi.phases_failed
    · rw [if_pos hps] at hq1; rw [if_pos hpf] at hq2
      exact hd q ⟨List.mem_of_mem_erase hq1, hq2⟩
    · rw [if_pos hps] at hq1; rw [if_neg hpf] at hq2
      rcases List.mem_append.mp hq2 with hq2 | hq2
      · exact hd q ⟨List.mem_of_mem_erase hq1, hq2⟩
      · have hq2' : q = p := by simpa using hq2
        subst hq2'
        exact (hs.mem_erase_iff.mp hq1).1 rfl
    · rw [if_neg hps] at hq1; rw [if_pos hpf] at hq2
      exact hd q ⟨hq1, hq2⟩
    · rw [if_neg hps] at hq1; rw [if_neg hpf] at hq2
      rcases List.mem_append.mp hq2 with hq2 | hq2
      · exact hd q ⟨hq1, hq2⟩
      · have hq2' : q = p := by simpa using hq2
        subst hq2'
        exact hps hq1
  · intro q hq
    rw [mark_phase_failed_succ_eq] at hq
    rw [hexeq]
    by_cases hps : p ∈ wi.phases_succeeded
    · rw [if_pos hps] at hq
      exact (mem_mark_phase_executed wi p q).mpr
        (Or.inl (hse q (List.mem_of_mem_erase hq)))
    · rw [if_neg hps] at hq
      exact (mem_mark_phase_executed wi p q).mpr (Or.inl (hse q hq))
  · intro q hq
    rw [mark_phase_failed_failed_eq] at hq
    rw [hexeq]
    by_cases hpf : p ∈ wi.phases_failed
    · rw [if_pos hpf] at hq
      exact (mem_mark_phase_executed wi p q).mpr (Or.inl (hfe q hq))
    · rw [if_neg hpf] at hq
      rcases List.mem_append.mp hq with hq | hq
      · exact (mem_mark_phase_executed wi p q).mpr (Or.inl (hfe q hq))
      · have hq' : q = p := by simpa using hq
        subst hq'
        exact hpe

theorem phasesInvariant_applyMarkOp (wi : WorkflowInfo) (op : MarkOp)
    (h : phasesInvariant wi) : phasesInvariant (applyMarkOp wi op) := by
  cases op with
  | executed p => exact phasesInvariant_mark_executed wi p h
  | succeeded p => exact phasesInvariant_mark_succeeded wi p h
  | failed p e => exact phasesInvariant_mark_failed wi p e h

theorem phasesInvariant_applyMarkOps (ops : List MarkOp) (wi : WorkflowInfo)
    (h : phasesInvariant wi) : phasesInvariant (applyMarkOps wi ops) := by
  induction ops generalizing wi with
  | nil => exact h
  | cons op rest ih =>
    exact ih (applyMarkOp wi op) (phasesInvariant_applyMarkOp wi op h)

theorem mark_phase_failed_errors_eq (wi : WorkflowInfo) (p : String)
    (e : Option String) :
    (wi.mark_phase_failed p e).errors =
      if pyTruthyOpt e then updateAssoc wi.errors p (e.getD "")
      else wi.errors := rfl

theorem updateAssoc_idem (m : List (String × String)) (k v : String) :
    updateAssoc (updateAssoc m k v) k v = updateAssoc m k v := by
  unfold updateAssoc
  by_cases h : m.any (fun p => p.1 = k)
  · rw [if_pos h]
    have h2 : (m.map (fun p => if p.1 = k then (k, v) else p)).any
        (fun p => p.1 = k) = true := by
      rcases List.any_eq_true.mp h with ⟨x, hx, hxk⟩
      have hxk' : x.1 = k := by simpa using hxk
      refine List.any_eq_true.mpr
        ⟨(k, v), List.mem_map.mpr ⟨x, hx, ?_⟩, by simp⟩
      rw [if_pos hxk']
    rw [if_pos h2, List.map_map]
    congr 1
    funext x
    by_cases hx : x.1 = k
    · simp [Function.comp, hx]
    · simp [Function.comp, hx]
  · rw [if_neg h]
    have hall : ∀ x ∈ m, ¬(x.1 = k) := by
      intro x hx hxk
      exact h (List.any_eq_true.mpr ⟨x, hx, decide_eq_true hxk⟩)
    have h2 : (m ++ [(k, v)]).any (fun p => p.1 = k) = true :=
      List.any_eq_true.mpr ⟨(k, v), by simp, by simp⟩
    rw [if_pos h2, List.map_append]
    have hmap : m.map (fun p => if p.1 = k then (k, v) else p) = m := by
      conv_rhs => rw [← List.map_id m]
      exact List.map_congr_left (fun x hx => by simp [hall x hx])
    rw [hmap]
    simp

theorem mem_succ_mark_succeeded_self (wi : WorkflowInfo) (p : String) :
    p ∈ (wi.mark_phase_succeeded p).phases_succeeded := by
  rw [mark_phase_succeeded_succ_eq]
  by_cases hp : p ∈ wi.phases_succeeded
  · rw [if_pos hp]; exact hp
  · rw [if_neg hp]; simp

theorem not_mem_failed_mark_succeeded (wi : WorkflowInfo) (p : String)
    (hf : wi.phases_failed.Nodup) :
    p ∉ (wi.mark_phase_succeeded p).phases_failed := by
  rw [mark_phase_succeeded_failed_eq]
  by_cases hp : p ∈ wi.phases_failed
  · rw [if_pos hp]
    intro hmem
    exact (hf.mem_erase_iff.mp hmem).1 rfl
  · rw [if_neg hp]; exact hp

theorem mem_failed_mark_failed_self (wi : WorkflowInfo) (p : String)
    (e : Option String) :
    p ∈ (wi.mark_phase_failed p e).phases_failed := by
  rw [mark_phase_failed_failed_eq]
  by_cases hp : p ∈ wi.phases_failed
  · rw [if_pos hp]; exact hp
  · rw [if_neg hp]; simp

theorem not_mem_succ_mark_failed (wi : WorkflowInfo) (p : String)
    (e : Option String) (hs : wi.phases_succeeded.Nodup) :
    p ∉ (wi.mark_phase_failed p e).phases_succeeded := by
  rw [mark_phase_failed_succ_eq]
  by_cases hp : p ∈ wi.phases_succeeded
  · rw [if_pos hp]
    intro hmem
    exact (hs.mem_erase_iff.mp hmem).1 rfl
  · rw [if_neg hp]; exact hp

theorem mark_phase_succeeded_idem (wi : WorkflowInfo) (p : String)
    (hf : wi.phases_failed.Nodup) :
    (wi.mark_phase_succeeded p).mark_phase_succeeded p =
      wi.mark_phase_succeeded p := by
  have hps := mem_succ_mark_succeeded_self wi p
  have hpf := not_mem_failed_mark_succeeded wi p hf
  have hpe : p ∈ (wi.mark_phase_succeeded p).phases_executed := by
    rw [mark_phase_succeeded_exec_eq]
    exact mem_mark_phase_executed_self wi p
  ext1
  · rfl
  · rw [mark_phase_succeeded_exec_eq, mark_phase_executed_exec_eq, if_pos hpe]
  · rw [mark_phase_succeeded_succ_eq, if_pos hps]
  · rw [mark_phase_succeeded_failed_eq, if_neg hpf]
  all_goals rfl

theorem mark_phase_failed_idem (wi : WorkflowInfo) (p : String)
    (e : Option String) (hs : wi.phases_succeeded.Nodup) :
    (wi.mark_phase_failed p e).mark_phase_failed p e =
      wi.mark_phase_failed p e := by
  have hpf := mem_failed_mark_failed_self wi p e
  have hps := not_mem_succ_mark_failed wi p e hs
  have hpe : p ∈ (wi.mark_phase_failed p e).phases_executed := by
    rw [mark_phase_failed_exec_eq]
    exact mem_mark_phase_executed_self wi p
  ext1
  · rfl
  · rw [mark_phase_failed_exec_eq, mark_phase_executed_exec_eq, if_pos hpe]
  · rw [mark_phase_failed_succ_eq, if_neg hps]
  · rw [mark_phase_failed_failed_eq, if_pos hpf]
  · rfl
  · rfl
  · rfl
  · rfl
  · rfl
  · rfl
  · rfl
  · rfl
  · rfl
  · rfl
  · rfl
  · rw [mark_phase_failed_errors_eq, mark_phase_failed_errors_eq]
    by_cases he : pyTruthyOpt e = true
    · rw [if_pos he, if_pos he, updateAssoc_idem]
    · rw [if_neg he, if_neg he]

/-- Tracker state reached from a fresh `WorkflowInfo` by a sequence of
`mark_phase_*` calls. -/
def trackerAfter (ops : List MarkOp) : WorkflowInfo :=
  applyMarkOps WorkflowInfo.init ops

theorem phasesInvariant_trackerAfter (ops : List MarkOp) :
    phasesInvariant (trackerAfter ops) :=
  phasesInvariant_applyMarkOps ops WorkflowInfo.init phasesInvariant_init

/-- C6: for every sequence of `mark_phase_*` calls on a fresh `WorkflowInfo`
and every phase name, the phase is never simultaneously in `phases_succeeded`
and `phases_failed`; marking a phase succeeded removes it from the failed list
and marking it failed removes it from the succeeded list; and both operations
are idempotent. -/
theorem c6_mark_phase_disjoint_and_idempotent (ops : List MarkOp) (p : String)
    (e : Option String) :
    (¬(p ∈ (trackerAfter ops).phases_succeeded ∧
        p ∈ (trackerAfter ops).phases_failed)) ∧
    p ∉ ((trackerAfter ops).mark_phase_succeeded p).phases_failed ∧
    p ∉ ((trackerAfter ops).mark_phase_failed p e).phases_succeeded ∧
    ((trackerAfter ops).mark_phase_succeeded p).mark_phase_succeeded p =
      (trackerAfter ops).mark_phase_succeeded p ∧
    ((trackerAfter ops).mark_phase_failed p e).mark_phase_failed p e =
      (trackerAfter ops).mark_phase_failed p e := by
  obtain ⟨he, hs, hf, hd, hse, hfe⟩ := phasesInvariant_trackerAfter ops
  exact ⟨hd p, not_mem_failed_mark_succeeded _ p hf,
    not_mem_succ_mark_failed _ p e hs,
    mark_phase_succeeded_idem _ p hf, mark_phase_failed_idem _ p e hs⟩

/-- Closed instance of C6 at a concrete call sequence and phase. -/
theorem c6_witness :
    (¬("a" ∈ (trackerAfter [MarkOp.succeeded "a", MarkOp.failed "a" (some "boom")]).phases_succeeded ∧
        "a" ∈ (trackerAfter [MarkOp.succeeded "a", MarkOp.failed "a" (some "boom")]).phases_failed)) ∧
    "a" ∉ ((trackerAfter [MarkOp.succeeded "a", MarkOp.failed "a" (some "boom")]).mark_phase_succeeded "a").phases_failed ∧
    "a" ∉ ((trackerAfter [MarkOp.succeeded "a", MarkOp.failed "a" (some "boom")]).mark_phase_failed "a" none).phases_succeeded ∧
    ((trackerAfter [MarkOp.succeeded "a", MarkOp.failed "a" (some "boom")]).mark_phase_succeeded "a").mark_phase_succeeded "a" =
      (trackerAfter [MarkOp.succeeded "a", MarkOp.failed "a" (some "boom")]).mark_phase_succeeded "a" ∧
    ((trackerAfter [MarkOp.succeeded "a", MarkOp.failed "a" (some "boom")]).mark_phase_failed "a" none).mark_phase_failed "a" none =
      (trackerAfter [MarkOp.succeeded "a", MarkOp.failed "a" (some "boom")]).mark_phase_failed "a" none :=
  c6_mark_phase_disjoint_and_idempotent
    [MarkOp.succeeded "a", MarkOp.failed "a" (some "boom")] "a" none

/-- C10: for every sequence of `mark_phase_executed` / `mark_phase_succeeded` /
`mark_phase_failed` calls on a fresh `WorkflowInfo`, every phase appearing in
`phases_succeeded` or `phases_failed` also appears in `phases_executed`, and
none of the three phase lists contains duplicates. -/
theorem c10_executed_superset_and_nodup (ops : List MarkOp) (p : String) :
    (p ∈ (trackerAfter ops).phases_succeeded ∨
      p ∈ (trackerAfter ops).phases_failed →
      p ∈ (trackerAfter ops).phases_executed) ∧
    (trackerAfter ops).phases_executed.Nodup ∧
    (trackerAfter ops).phases_succeeded.Nodup ∧
    (trackerAfter ops).phases_failed.Nodup := by
  obtain ⟨he, hs, hf, hd, hse, hfe⟩ := phasesInvariant_trackerAfter ops
  refine ⟨?_, he, hs, hf⟩
  rintro (hp | hp)
  · exact hse p hp
  · exact hfe p hp

/-- Closed instance of C10 with the implication's antecedent discharged. -/
theorem c10_witness :
    "b" ∈ (trackerAfter [MarkOp.executed "a", MarkOp.succeeded "b",
        MarkOp.failed "c" none]).phases_executed ∧
    (trackerAfter [MarkOp.executed "a", MarkOp.succeeded "b",
        MarkOp.failed "c" none]).phases_executed.Nodup := by
  have h := c10_executed_superset_and_nodup
    [MarkOp.executed "a", MarkOp.succeeded "b", MarkOp.failed "c" none] "b"
  exact ⟨h.1 (Or.inl (by decide)), h.2.1⟩

/-!
## Workflow events and the non-streaming Result Aggregator (claim C3)

Events yielded by `DeepSeekXWorkflow.process` are dictionaries that always
carry a `"type"` and a `"content"` key; a `"phase"` key and a
`"reasoning_content"` key are present on some of them, modelled as `Option`
fields (`none` means the key is absent).
-/

@[ext]
structure Event where
  type : String
  content : String
  phase : Option String
  reasoning_content : Option String
  deriving Repr, DecidableEq

/-- Merge step of `_collect_async_generator_results`
(deepseek_openaicompatible_combinator.py lines 271-281): both dictionaries
carry `"content"`, so the contents are concatenated and every other key of the
incoming event overwrites the accumulator. -/
def mergeEvents (acc e : Event) : Event :=
  { type := e.type
    content := acc.content ++ e.content
    phase := match e.phase with
      | some p => some p
      | none => acc.phase
    reasoning_content := match e.reasoning_content with
      | some r => some r
      | none => acc.reasoning_content }

/-- Loop state of `_collect_async_generator_results`
(deepseek_openaicompatible_combinator.py lines 218-223). -/
structure CollectState where
  accumulated : Option Event
  last : Option Event
  reasoning : String
  summary : String
  has_reasoning : Bool
  has_summary : Bool
  deriving Repr, DecidableEq

def CollectState.start : CollectState :=
  { accumulated := none, last := none, reasoning := "", summary := ""
    has_reasoning := false, has_summary := false }

/-- One loop iteration of `_collect_async_generator_results`
(deepseek_openaicompatible_combinator.py lines 226-284) on a structured event
whose content is a string. -/
def collectStep (st : CollectState) (e : Event) : CollectState :=
  let st1 :=
    if e.type = "reasoning" ∧ e.content ≠ "" then
      { st with reasoning := st.reasoning ++ e.content, has_reasoning := true }
    else if e.type = "summary" ∧ e.content ≠ "" then
      { st with summary := st.summary ++ e.content, has_summary := true }
    else st
  { st1 with
    last := some e
    accumulated :=
      match st1.accumulated with
      | none => some e
      | some a => some (mergeEvents a e) }

/-- Return value of `_collect_async_generator_results`: either a plain string
or a structured event. -/
inductive CollectResult where
  | text (s : String)
  | event (e : Event)
  deriving Repr, DecidableEq

/-- Final selection of `_collect_async_generator_results`
(deepseek_openaicompatible_combinator.py lines 294-309) applied to the full
event sequence (the no-exception path). -/
def collectResults (events : List Event) : CollectResult :=
  let st := events.foldl collectStep CollectState.start
  if st.has_summary ∧ st.summary ≠ "" then .text st.summary
  else if st.has_reasoning ∧ st.reasoning ≠ "" then .text st.reasoning
  else
    match st.accumulated with
    | some a => .event a
    | none =>
      match st.last with
      | some l => .event l
      | none => .text "No results available"

/-- Summary text carried by an event (empty for non-summary events). -/
def summaryText (e : Event) : String :=
  if e.type = "summary" then e.content else ""

/-- Reasoning text carried by an event (empty for non-reasoning events). -/
def reasoningText (e : Event) : String :=
  if e.type = "reasoning" then e.content else ""

/-- Aggregator contract exactly as claim C3 states it: summary concatenation,
else reasoning concatenation, else the LAST structured event verbatim, else
the literal no-results marker. -/
def specCollectClaim (events : List Event) : CollectResult :=
  if events.any (fun e => e.type = "summary" ∧ e.content ≠ "") then
    .text (strConcat (events.map summaryText))
  else if events.any (fun e => e.type = "reasoning" ∧ e.content ≠ "") then
    .text (strConcat (events.map reasoningText))
  else
    match events.getLast? with
    | some l => .event l
    | none => .text "No results available"

/-- Aggregator contract amended to what the code computes in the third branch:
summary concatenation, else reasoning concatenation, else — when at least one
event was received — the running merge of all received events (the first event
with every later event's content appended and its other present keys
overwritten), else the literal no-results marker. -/
def specCollectAmended (events : List Event) : CollectResult :=
  if events.any (fun e => e.type = "summary" ∧ e.content ≠ "") then
    .text (strConcat (events.map summaryText))
  else if events.any (fun e => e.type = "reasoning" ∧ e.content ≠ "") then
    .text (strConcat (events.map reasoningText))
  else
    match events with
    | [] => .text "No results available"
    | e :: rest => .event (rest.foldl mergeEvents e)

theorem strEmpty_append (s : String) : "" ++ s = s := by
  apply String.ext
  rw [String.data_append]
  rfl

theorem strAppend_eq_empty {a b : String} :
    a ++ b = "" ↔ a = "" ∧ b = "" := by
  constructor
  · intro h
    have hd := congrArg String.data h
    rw [String.data_append] at hd
    have hab := List.append_eq_nil.mp hd
    constructor
    · apply String.ext
      exact hab.1
    · apply String.ext
      exact hab.2
  · rintro ⟨rfl, rfl⟩
    rfl

theorem strConcat_ne_empty {l : List String} {s : String}
    (hs : s ∈ l) (hne : s ≠ "") : strConcat l ≠ "" := by
  induction l with
  | nil => cases hs
  | cons a rest ih =>
    rcases List.mem_cons.mp hs with rfl | hs
    · intro h
      exact hne (strAppend_eq_empty.mp h).1
    · intro h
      exact ih hs (strAppend_eq_empty.mp h).2

theorem collectFold_summary (events : List Event) (st : CollectState) :
    (events.foldl collectStep st).summary =
      st.summary ++ strConcat (events.map summaryText) := by
  induction events generalizing st with
  | nil => simp [strConcat]
  | cons e rest ih =>
    rw [List.foldl_cons, ih]
    have hstep : (collectStep st e).summary =
        st.summary ++ summaryText e := by
      unfold collectStep summaryText
      by_cases h1 : e.type = "reasoning" ∧ e.content ≠ ""
      · rw [if_pos h1]
        dsimp only
        rw [if_neg (by simp [h1.1])]
        simp
      · rw [if_neg h1]
        by_cases h2 : e.type = "summary" ∧ e.content ≠ ""
        · rw [if_pos h2, if_pos h2.1]
        · rw [if_neg h2]
          dsimp only
          by_cases h3 : e.type = "summary"
          · rw [if_pos h3]
            have : e.content = "" := by
              by_contra hc
              exact h2 ⟨h3, hc⟩
            rw [this]
            simp
          · rw [if_neg h3]
            simp
    rw [hstep, List.map_cons]
    show st.summary ++ summaryText e ++ strConcat (summaryText e :: rest.map summaryText).tail =
      st.summary ++ strConcat (summaryText e :: rest.map summaryText)
    rw [String.append_assoc]
    rfl

theorem collectFold_reasoning (events : List Event) (st : CollectState) :
    (events.foldl collectStep st).reasoning =
      st.reasoning ++ strConcat (events.map reasoningText) := by
  induction events generalizing st with
  | nil => simp [strConcat]
  | cons e rest ih =>
    rw [List.foldl_cons, ih]
    have hstep : (collectStep st e).reasoning =
        st.reasoning ++ reasoningText e := by
      unfold collectStep reasoningText
      by_cases h1 : e.type = "reasoning" ∧ e.content ≠ ""
      · rw [if_pos h1, if_pos h1.1]
      · rw [if_neg h1]
        by_cases h2 : e.type = "summary" ∧ e.content ≠ ""
        · rw [if_pos h2]
          dsimp only
          rw [if_neg (by simp [h2.1])]
          simp
        · rw [if_neg h2]
          dsimp only
          by_cases h3 : e.type = "reasoning"
          · rw [if_pos h3]
            have : e.content = "" := by
              by_contra hc
              exact h1 ⟨h3, hc⟩
            rw [this]
            simp
          · rw [if_neg h3]
            simp
    rw [hstep, List.map_cons]
    show st.reasoning ++ reasoningText e ++ strConcat (reasoningText e :: rest.map reasoningText).tail =
      st.reasoning ++ strConcat (reasoningText e :: rest.map reasoningText)
    rw [String.append_assoc]
    rfl

theorem collectFold_has_summary (events : List Event) (st : CollectState) :
    (events.foldl collectStep st).has_summary =
      (st.has_summary || events.any (fun e => e.type = "summary" ∧ e.content ≠ "")) := by
  induction events generalizing st with
  | nil => simp
  | cons e rest ih =>
    rw [List.foldl_cons, ih, List.any_cons]
    have hstep : (collectStep st e).has_summary =
        (st.has_summary || decide (e.type = "summary" ∧ e.content ≠ "")) := by
      unfold collectStep
      by_cases h1 : e.type = "reasoning" ∧ e.content ≠ ""
      · rw [if_pos h1]
        have : ¬(e.type = "summary" ∧ e.content ≠ "") := by
          rintro ⟨h, -⟩
          rw [h1.1] at h
          exact absurd h (by decide)
        simp [this]
      · rw [if_neg h1]
        by_cases h2 : e.type = "summary" ∧ e.content ≠ ""
        · rw [if_pos h2]
          simp [h2]
        · rw [if_neg h2]
          simp [h2]
    rw [hstep, Bool.or_assoc]

theorem collectFold_has_reasoning (events : List Event) (st : CollectState) :
    (events.foldl collectStep st).has_reasoning =
      (st.has_reasoning || events.any (fun e => e.type = "reasoning" ∧ e.content ≠ "")) := by
  induction events generalizing st with
  | nil => simp
  | cons e rest ih =>
    rw [List.foldl_cons, ih, List.any_cons]
    have hstep : (collectStep st e).has_reasoning =
        (st.has_reasoning || decide (e.type = "reasoning" ∧ e.content ≠ "")) := by
      unfold collectStep
      by_cases h1 : e.type = "reasoning" ∧ e.content ≠ ""
      · rw [if_pos h1]
        simp [h1]
      · rw [if_neg h1]
        by_cases h2 : e.type = "summary" ∧ e.content ≠ ""
        · rw [if_pos h2]
          simp [h1]
        · rw [if_neg h2]
          simp [h1]
    rw [hstep, Bool.or_assoc]

theorem collectStep_accumulated (st : CollectState) (e : Event) :
    (collectStep st e).accumulated =
      match st.accumulated with
      | none => some e
      | some a => some (mergeEvents a e) := by
  unfold collectStep
  by_cases h1 : e.type = "reasoning" ∧ e.content ≠ ""
  · rw [if_pos h1]
  · rw [if_neg h1]
    by_cases h2 : e.type = "summary" ∧ e.content ≠ ""
    · rw [if_pos h2]
    · rw [if_neg h2]

theorem collectFold_accumulated_some (events : List Event) (st : CollectState)
    (a : Event) (h : st.accumulated = some a) :
    (events.foldl collectStep st).accumulated =
      some (events.foldl mergeEvents a) := by
  induction events generalizing st a with
  | nil => simpa using h
  | cons e rest ih =>
    rw [List.foldl_cons, List.foldl_cons]
    apply ih
    rw [collectStep_accumulated, h]

theorem collectFold_accumulated_none (events : List Event) (st : CollectState)
    (h : st.accumulated = none) :
    (events.foldl collectStep st).accumulated =
      match events with
      | [] => none
      | e :: rest => some (rest.foldl mergeEvents e) := by
  cases events with
  | nil => simpa using h
  | cons e rest =>
    rw [List.foldl_cons]
    apply collectFold_accumulated_some
    rw [collectStep_accumulated, h]

/-- C3 counterexample: two events, neither summary nor reasoning; the
aggregator returns the merged accumulation, not the last event verbatim. -/
theorem c3_counterexample :
    collectResults
        [⟨"error", "a", none, none⟩, ⟨"reasoning_end", "", none, none⟩] ≠
      specCollectClaim
        [⟨"error", "a", none, none⟩, ⟨"reasoning_end", "", none, none⟩] := by
  decide

/-- C3 amended: precedence is summary concatenation, else reasoning
concatenation, else — when at least one event was received — the running merge
of all events (first event with later contents appended and later present keys
overwriting), else the literal "No results available" marker. -/
theorem c3_aggregator_precedence (events : List Event) :
    collectResults events = specCollectAmended events := by
  unfold collectResults specCollectAmended
  have hsum := collectFold_summary events CollectState.start
  have hrea := collectFold_reasoning events CollectState.start
  have hhs := collectFold_has_summary events CollectState.start
  have hhr := collectFold_has_reasoning events CollectState.start
  have hacc := collectFold_accumulated_none events CollectState.start rfl
  by_cases hS : events.any (fun e => e.type = "summary" ∧ e.content ≠ "") = true
  · rcases List.any_eq_true.mp hS with ⟨e, he, hprop⟩
    have hprop' : e.type = "summary" ∧ e.content ≠ "" := by simpa using hprop
    have hmem : summaryText e ∈ events.map summaryText :=
      List.mem_map.mpr ⟨e, he, rfl⟩
    have hne : summaryText e ≠ "" := by
      unfold summaryText
      rw [if_pos hprop'.1]
      exact hprop'.2
    have hs1 : (events.foldl collectStep CollectState.start).has_summary = true := by
      rw [hhs, hS]
      simp
    have hs2 : (events.foldl collectStep CollectState.start).summary ≠ "" := by
      rw [hsum]
      intro h
      exact strConcat_ne_empty hmem hne (strAppend_eq_empty.mp h).2
    rw [if_pos ⟨hs1, hs2⟩, if_pos hS, hsum]
    simp [CollectState.start, strEmpty_append]
  · have hS' : events.any (fun e => e.type = "summary" ∧ e.content ≠ "") = false :=
      Bool.eq_false_iff.mpr hS
    have hns : ¬((events.foldl collectStep CollectState.start).has_summary = true ∧
        (events.foldl collectStep CollectState.start).summary ≠ "") := by
      rintro ⟨h1, -⟩
      rw [hhs, hS'] at h1
      simp [CollectState.start] at h1
    rw [if_neg hns, if_neg hS]
    by_cases hR : events.any (fun e => e.type = "reasoning" ∧ e.content ≠ "") = true
    · rcases List.any_eq_true.mp hR with ⟨e, he, hprop⟩
      have hprop' : e.type = "reasoning" ∧ e.content ≠ "" := by simpa using hprop
      have hmem : reasoningText e ∈ events.map reasoningText :=
        List.mem_map.mpr ⟨e, he, rfl⟩
      have hne : reasoningText e ≠ "" := by
        unfold reasoningText
        rw [if_pos hprop'.1]
        exact hprop'.2
      have hr1 : (events.foldl collectStep CollectState.start).has_reasoning = true := by
        rw [hhr, hR]
        simp
      have hr2 : (events.foldl collectStep CollectState.start).reasoning ≠ "" := by
        rw [hrea]
        intro h
        exact strConcat_ne_empty hmem hne (strAppend_eq_empty.mp h).2
      rw [if_pos ⟨hr1, hr2⟩, if_pos hR, hrea]
      simp [CollectState.start, strEmpty_append]
    · have hR' : events.any (fun e => e.type = "reasoning" ∧ e.content ≠ "") = false :=
        Bool.eq_false_iff.mpr hR
      have hnr : ¬((events.foldl collectStep CollectState.start).has_reasoning = true ∧
          (events.foldl collectStep CollectState.start).reasoning ≠ "") := by
        rintro ⟨h1, -⟩
        rw [hhr, hR'] at h1
        simp [CollectState.start] at h1
      rw [if_neg hnr, if_neg hR]
      cases events with
      | nil => simp [CollectState.start]
      | cons e rest =>
        dsimp only at hacc
        rw [hacc]

/-!
## Reasoning-backend stream decoder (claims C5 and C8)

Embedding of `DeepSeekClient._process_stream_response`
(deepseek_client.py lines 91-228) at the granularity of parsed data frames:
a frame is the JSON body of one `data:` line that carried a `choices[0]`
entry; its `delta` object may carry a `reasoning_content` key and/or a
`content` key (absent keys are `none`), and the choice may carry a
`finish_reason`.
-/

structure DSDelta where
  reasoning_content : Option String
  content : Option String
  deriving Repr, DecidableEq

structure DSFrame where
  delta : Option DSDelta
  finish_reason : Option String
  deriving Repr, DecidableEq

/-- Events yielded by the reasoning-backend decoder. -/
inductive DSEvent where
  | reasoning (text : String)
  | content (text : String)
  | phase1_complete (reasoning_content : String) (content : String)
  | reasoning_end
  deriving Repr, DecidableEq

/-- Mutable decoder state (deepseek_client.py lines 101-107). -/
structure DSState where
  accumulated_content : String
  reasoning_content : String
  has_valid_reasoning : Bool
  reasoning_completed : Bool
  deriving Repr, DecidableEq

def DSState.init : DSState :=
  { accumulated_content := "", reasoning_content := ""
    has_valid_reasoning := false, reasoning_completed := false }

/-- Chunk filter used by the decoder: non-empty and not the literal strings
"null" / "None" (deepseek_client.py lines 155 and 174). -/
def validChunk (s : String) : Bool := s ≠ "" && s ≠ "null" && s ≠ "None"

/-- Handling of the `reasoning_content` key of a delta
(deepseek_client.py lines 153-169). -/
def processReasoningKey (st : DSState) (d : DSDelta) :
    DSState × List DSEvent :=
  match d.reasoning_content with
  | none => (st, [])
  | some rc =>
    if validChunk rc then
      ({ st with reasoning_content := st.reasoning_content ++ rc
                 has_valid_reasoning := true },
        [.reasoning rc])
    else if st.has_valid_reasoning && !st.reasoning_completed then
      ({ st with reasoning_completed := true }, [])
    else (st, [])

/-- Handling of the `content` key of a delta (deepseek_client.py lines
171-189); it only fires while no valid reasoning has been seen, and the very
first content chunk is then replayed as reasoning. -/
def processContentKey (st : DSState) (d : DSDelta) :
    DSState × List DSEvent :=
  match d.content with
  | none => (st, [])
  | some c =>
    if st.has_valid_reasoning then (st, [])
    else if validChunk c then
      let st1 := { st with accumulated_content := st.accumulated_content ++ c }
      if st1.has_valid_reasoning then (st1, [.content c])
      else
        ({ st1 with reasoning_content := st1.accumulated_content
                    has_valid_reasoning := true },
          [.reasoning c, .content c])
    else (st, [])

/-- Processing of one parsed frame, including the completion check
(deepseek_client.py lines 149-206): after the delta keys are handled, if the
end-of-reasoning flag is set or the frame carries `finish_reason` "stop", a
`phase1_complete` event and a `reasoning_end` event are emitted. -/
def processFrame (st : DSState) (f : DSFrame) : DSState × List DSEvent :=
  match f.delta with
  | none => (st, [])
  | some d =>
    let r1 := processReasoningKey st d
    let r2 := processContentKey r1.1 d
    if r2.1.reasoning_completed || f.finish_reason == some "stop" then
      (r2.1, r1.2 ++ r2.2 ++
        [.phase1_complete
            (if r2.1.has_valid_reasoning then r2.1.reasoning_content else "")
            r2.1.accumulated_content,
          .reasoning_end])
    else (r2.1, r1.2 ++ r2.2)

/-- Fold of the decoder over a frame sequence, collecting emitted events. -/
def decodeFrames (st : DSState) : List DSFrame → DSState × List DSEvent
  | [] => (st, [])
  | f :: fs =>
    ((decodeFrames (processFrame st f).1 fs).1,
     (processFrame st f).2 ++ (decodeFrames (processFrame st f).1 fs).2)

/-- Events emitted for a whole stream of parsed frames. -/
def dsDecode (frames : List DSFrame) : List DSEvent :=
  (decodeFrames DSState.init frames).2

/-- Text carried by a reasoning or content event; completion framing events
carry none. -/
def dsEventText : DSEvent → String
  | .reasoning s => s
  | .content s => s
  | .phase1_complete _ _ => ""
  | .reasoning_end => ""

/-- Concatenated text of the reasoning and content events of a decode. -/
def dsEmittedText (evs : List DSEvent) : String :=
  strConcat (evs.map dsEventText)

/-- Text of a frame's delta strings, reasoning part first. -/
def frameDeltaText (f : DSFrame) : String :=
  match f.delta with
  | none => ""
  | some d => d.reasoning_content.getD "" ++ d.content.getD ""

/-- Concatenated source delta text of a frame sequence. -/
def sourceDeltaText (frames : List DSFrame) : String :=
  strConcat (frames.map frameDeltaText)

/-- Well-formedness as claim C5 words it: every frame has a delta carrying a
reasoning_content string and/or a content string. -/
def wellFormedFrame (f : DSFrame) : Bool :=
  match f.delta with
  | some d => d.reasoning_content.isSome || d.content.isSome
  | none => false

/-- Restriction under which the text-conservation amendment holds: the delta,
when present, carries only a `reasoning_content` string (no `content` key) and
that string is not one of the decoder's sentinel literals. -/
def reasoningOnlyFrame (f : DSFrame) : Bool :=
  match f.delta with
  | none => true
  | some d =>
    d.content = none && d.reasoning_content ≠ some "null" &&
      d.reasoning_content ≠ some "None"

theorem strAppend_empty (s : String) : s ++ "" = s := by
  apply String.ext
  rw [String.data_append]
  simp

theorem strConcat_append (a b : List String) :
    strConcat (a ++ b) = strConcat a ++ strConcat b := by
  induction a with
  | nil => simp [strConcat, strEmpty_append]
  | cons s rest ih => simp [strConcat, ih, String.append_assoc]

theorem dsEmittedText_append (a b : List DSEvent) :
    dsEmittedText (a ++ b) = dsEmittedText a ++ dsEmittedText b := by
  unfold dsEmittedText
  rw [List.map_append, strConcat_append]

/-- C5 counterexample: a single well-formed content-only delta "X" is emitted
both as a reasoning event and as a content event, so the decoder's emitted
text is "XX" while the source delta text is "X". -/
theorem c5_counterexample :
    (∀ f ∈ [DSFrame.mk (some (DSDelta.mk none (some "X"))) none],
        wellFormedFrame f = true) ∧
    dsEmittedText
        (dsDecode [DSFrame.mk (some (DSDelta.mk none (some "X"))) none]) ≠
      sourceDeltaText [DSFrame.mk (some (DSDelta.mk none (some "X"))) none] := by
  constructor
  · decide
  · decide

theorem processReasoningKey_eq_none (st : DSState) (d : DSDelta)
    (h : d.reasoning_content = none) : processReasoningKey st d = (st, []) := by
  unfold processReasoningKey
  rw [h]

theorem processReasoningKey_eq_some (st : DSState) (rc : String) (d : DSDelta)
    (h : d.reasoning_content = some rc) :
    processReasoningKey st d =
      (if validChunk rc then
        ({ st with reasoning_content := st.reasoning_content ++ rc
                   has_valid_reasoning := true }, [DSEvent.reasoning rc])
      else if st.has_valid_reasoning && !st.reasoning_completed then
        ({ st with reasoning_completed := true }, [])
      else (st, [])) := by
  unfold processReasoningKey
  rw [h]

theorem processFrame_eq_none (st : DSState) (f : DSFrame)
    (h : f.delta = none) : processFrame st f = (st, []) := by
  unfold processFrame
  rw [h]

theorem processFrame_eq_some (st : DSState) (f : DSFrame) (d : DSDelta)
    (h : f.delta = some d) :
    processFrame st f =
      (if (processContentKey (processReasoningKey st d).1 d).1.reasoning_completed
          || f.finish_reason == some "stop" then
        ((processContentKey (processReasoningKey st d).1 d).1,
         (processReasoningKey st d).2 ++
           (processContentKey (processReasoningKey st d).1 d).2 ++
           [DSEvent.phase1_complete
              (if (processContentKey (processReasoningKey st d).1 d).1.has_valid_reasoning
               then (processContentKey (processReasoningKey st d).1 d).1.reasoning_content
               else "")
              (processContentKey (processReasoningKey st d).1 d).1.accumulated_content,
            DSEvent.reasoning_end])
      else ((processContentKey (processReasoningKey st d).1 d).1,
        (processReasoningKey st d).2 ++
          (processContentKey (processReasoningKey st d).1 d).2)) := by
  unfold processFrame
  rw [h]

theorem frameDeltaText_none (f : DSFrame) (h : f.delta = none) :
    frameDeltaText f = "" := by
  unfold frameDeltaText
  rw [h]

theorem frameDeltaText_some (f : DSFrame) (d : DSDelta)
    (h : f.delta = some d) :
    frameDeltaText f = d.reasoning_content.getD "" ++ d.content.getD "" := by
  unfold frameDeltaText
  rw [h]

theorem processReasoningKey_text (st : DSState) (d : DSDelta)
    (h1 : d.reasoning_content ≠ some "null")
    (h2 : d.reasoning_content ≠ some "None") :
    dsEmittedText (processReasoningKey st d).2 =
      d.reasoning_content.getD "" := by
  cases hd : d.reasoning_content with
  | none =>
    rw [processReasoningKey_eq_none st d hd]
    simp [dsEmittedText, strConcat]
  | some rc =>
    rw [hd] at h1 h2
    rw [processReasoningKey_eq_some st rc d hd]
    have hn1 : rc ≠ "null" := fun h => h1 (by rw [h])
    have hn2 : rc ≠ "None" := fun h => h2 (by rw [h])
    by_cases hrc : rc = ""
    · subst hrc
      rw [if_neg (by decide)]
      by_cases hb : (st.has_valid_reasoning && !st.reasoning_completed) = true
      · rw [if_pos hb]
        simp [dsEmittedText, strConcat]
      · rw [if_neg hb]
        simp [dsEmittedText, strConcat]
    · have hv : validChunk rc = true := by
        unfold validChunk
        simp [hrc, hn1, hn2]
      rw [if_pos hv]
      simp [dsEmittedText, strConcat, dsEventText, strAppend_empty]

theorem processContentKey_text_none (st : DSState) (d : DSDelta)
    (h : d.content = none) :
    (processContentKey st d).2 = [] ∧ (processContentKey st d).1 = st := by
  unfold processContentKey
  rw [h]
  exact ⟨rfl, rfl⟩

theorem processFrame_text_reasoningOnly (st : DSState) (f : DSFrame)
    (h : reasoningOnlyFrame f = true) :
    dsEmittedText (processFrame st f).2 = frameDeltaText f := by
  cases hd : f.delta with
  | none =>
    rw [processFrame_eq_none st f hd, frameDeltaText_none f hd]
    simp [dsEmittedText, strConcat]
  | some d =>
    have h' : (d.content = none && d.reasoning_content ≠ some "null" &&
        d.reasoning_content ≠ some "None") = true := by
      rw [← h]
      unfold reasoningOnlyFrame
      rw [hd]
    simp only [Bool.and_eq_true, decide_eq_true_eq] at h'
    obtain ⟨⟨hc, hn1⟩, hn2⟩ := h'
    have hck := processContentKey_text_none (processReasoningKey st d).1 d hc
    have hrk := processReasoningKey_text st d hn1 hn2
    rw [processFrame_eq_some st f d hd, frameDeltaText_some f d hd]
    by_cases hfire :
        ((processContentKey (processReasoningKey st d).1 d).1.reasoning_completed
          || f.finish_reason == some "stop") = true
    · rw [if_pos hfire]
      dsimp only
      rw [dsEmittedText_append, dsEmittedText_append, hrk, hck.1]
      simp [dsEmittedText, strConcat, dsEventText, strAppend_empty, hc]
    · rw [if_neg hfire]
      dsimp only
      rw [dsEmittedText_append, hrk, hck.1]
      simp [dsEmittedText, strConcat, strAppend_empty, hc]

theorem decodeFrames_text_reasoningOnly (frames : List DSFrame) (st : DSState)
    (h : ∀ f ∈ frames, reasoningOnlyFrame f = true) :
    dsEmittedText (decodeFrames st frames).2 = sourceDeltaText frames := by
  induction frames generalizing st with
  | nil => simp [decodeFrames, sourceDeltaText, strConcat, dsEmittedText]
  | cons f rest ih =>
    have hf := h f (List.mem_cons_self f rest)
    have hrest := fun g hg => h g (List.mem_cons_of_mem f hg)
    unfold decodeFrames
    rw [dsEmittedText_append, processFrame_text_reasoningOnly st f hf,
      ih (processFrame st f).1 hrest]
    unfold sourceDeltaText
    rw [List.map_cons]
    rfl

/-- C5 amended: for frame sequences whose deltas carry only
`reasoning_content` strings (no `content` key, and no "null"/"None" sentinel
values), the concatenation of the texts of all emitted reasoning and content
events equals the concatenation of the source delta strings, in source
order. -/
theorem c5_reasoning_only_text_conservation (frames : List DSFrame)
    (h : ∀ f ∈ frames, reasoningOnlyFrame f = true) :
    dsEmittedText (dsDecode frames) = sourceDeltaText frames :=
  decodeFrames_text_reasoningOnly frames DSState.init h

/-- Closed instance of the amended C5 on a concrete two-frame stream. -/
theorem c5_witness :
    (∀ f ∈ [DSFrame.mk (some (DSDelta.mk (some "ab") none)) none,
        DSFrame.mk (some (DSDelta.mk (some "") none)) (some "stop")],
        reasoningOnlyFrame f = true) ∧
    dsEmittedText (dsDecode [DSFrame.mk (some (DSDelta.mk (some "ab") none)) none,
        DSFrame.mk (some (DSDelta.mk (some "") none)) (some "stop")]) =
      sourceDeltaText [DSFrame.mk (some (DSDelta.mk (some "ab") none)) none,
        DSFrame.mk (some (DSDelta.mk (some "") none)) (some "stop")] :=
  ⟨by decide,
    c5_reasoning_only_text_conservation
      [DSFrame.mk (some (DSDelta.mk (some "ab") none)) none,
        DSFrame.mk (some (DSDelta.mk (some "") none)) (some "stop")]
      (by decide)⟩

/-!
## Claim C8: completion framing of the reasoning-backend decoder
-/

def isP1Complete : DSEvent → Bool
  | .phase1_complete _ _ => true
  | _ => false

def isReasoningEvent : DSEvent → Bool
  | .reasoning _ => true
  | _ => false

/-- Completion signal as claim C8 words it: some frame carries finish_reason
"stop", or the decoder's end-of-reasoning detection fires in the stream. -/
def signalsCompletion (frames : List DSFrame) : Bool :=
  (decodeFrames DSState.init frames).1.reasoning_completed ||
    frames.any (fun f => f.finish_reason == some "stop")

/-- Every phase1_complete event is immediately followed by reasoning_end. -/
def p1cImmediatelyFollowed (evs : List DSEvent) : Prop :=
  ∀ i r c, evs.get? i = some (DSEvent.phase1_complete r c) →
    evs.get? (i + 1) = some DSEvent.reasoning_end

/-- Every reasoning event precedes every phase1_complete event. -/
def reasoningPrecedesP1c (evs : List DSEvent) : Prop :=
  ∀ i j s r c, evs.get? i = some (DSEvent.reasoning s) →
    evs.get? j = some (DSEvent.phase1_complete r c) → i < j

/-- C8 counterexample: after the end-of-reasoning signal fires, a further
reasoning delta re-opens reasoning output and a second phase1_complete is
emitted, so a reasoning event appears after the first phase1_complete. -/
theorem c8_counterexample :
    signalsCompletion
        [DSFrame.mk (some (DSDelta.mk (some "A") none)) none,
         DSFrame.mk (some (DSDelta.mk (some "") none)) none,
         DSFrame.mk (some (DSDelta.mk (some "B") none)) none] = true ∧
    (dsDecode
        [DSFrame.mk (some (DSDelta.mk (some "A") none)) none,
         DSFrame.mk (some (DSDelta.mk (some "") none)) none,
         DSFrame.mk (some (DSDelta.mk (some "B") none)) none]).get? 1 =
      some (DSEvent.phase1_complete "A" "") ∧
    (dsDecode
        [DSFrame.mk (some (DSDelta.mk (some "A") none)) none,
         DSFrame.mk (some (DSDelta.mk (some "") none)) none,
         DSFrame.mk (some (DSDelta.mk (some "B") none)) none]).get? 3 =
      some (DSEvent.reasoning "B") ∧
    ¬ reasoningPrecedesP1c
        (dsDecode
          [DSFrame.mk (some (DSDelta.mk (some "A") none)) none,
           DSFrame.mk (some (DSDelta.mk (some "") none)) none,
           DSFrame.mk (some (DSDelta.mk (some "B") none)) none]) := by
  refine ⟨by decide, by decide, by decide, ?_⟩
  intro hcontra
  have h3 := hcontra 3 1 "B" "A" "" (by decide) (by decide)
  omega

theorem processContentKey_eq_some (st : DSState) (c : String) (d : DSDelta)
    (h : d.content = some c) :
    processContentKey st d =
      (if st.has_valid_reasoning then (st, [])
       else if validChunk c then
         (if st.has_valid_reasoning then
            ({ st with accumulated_content := st.accumulated_content ++ c },
              [DSEvent.content c])
          else
            ({ st with accumulated_content := st.accumulated_content ++ c
                       reasoning_content := st.accumulated_content ++ c
                       has_valid_reasoning := true },
              [DSEvent.reasoning c, DSEvent.content c]))
       else (st, [])) := by
  unfold processContentKey
  rw [h]

theorem processReasoningKey_no_p1c (st : DSState) (d : DSDelta) :
    ∀ e ∈ (processReasoningKey st d).2, isP1Complete e = false := by
  cases hd : d.reasoning_content with
  | none =>
    rw [processReasoningKey_eq_none st d hd]
    simp
  | some rc =>
    rw [processReasoningKey_eq_some st rc d hd]
    by_cases hv : validChunk rc = true
    · rw [if_pos hv]
      simp [isP1Complete]
    · rw [if_neg hv]
      by_cases hb : (st.has_valid_reasoning && !st.reasoning_completed) = true
      · rw [if_pos hb]; simp
      · rw [if_neg hb]; simp

theorem processContentKey_no_p1c (st : DSState) (d : DSDelta) :
    ∀ e ∈ (processContentKey st d).2, isP1Complete e = false := by
  cases hd : d.content with
  | none =>
    rw [(processContentKey_text_none st d hd).1]
    simp
  | some c =>
    rw [processContentKey_eq_some st c d hd]
    by_cases h1 : st.has_valid_reasoning = true
    · rw [if_pos h1]
      simp
    · rw [if_neg h1]
      by_cases hv : validChunk c = true
      · rw [if_pos hv, if_neg h1]
        simp [isP1Complete]
      · rw [if_neg hv]
        simp

theorem decodeFrames_append (st : DSState) (fs gs : List DSFrame) :
    decodeFrames st (fs ++ gs) =
      ((decodeFrames (decodeFrames st fs).1 gs).1,
       (decodeFrames st fs).2 ++ (decodeFrames (decodeFrames st fs).1 gs).2) := by
  induction fs generalizing st with
  | nil => simp [decodeFrames]
  | cons f rest ih =>
    simp only [List.cons_append, decodeFrames, List.append_eq]
    rw [ih (processFrame st f).1]
    simp [List.append_assoc]

theorem decodeFrames_single (st : DSState) (f : DSFrame) :
    decodeFrames st [f] = ((processFrame st f).1, (processFrame st f).2) := by
  simp [decodeFrames]

theorem p1c_tail_shape (pre : List DSEvent) (r c : String)
    (hpre : ∀ e ∈ pre, isP1Complete e = false) :
    p1cImmediatelyFollowed
        (pre ++ [DSEvent.phase1_complete r c, DSEvent.reasoning_end]) ∧
    reasoningPrecedesP1c
        (pre ++ [DSEvent.phase1_complete r c, DSEvent.reasoning_end]) := by
  have hidx : ∀ j r' c',
      (pre ++ [DSEvent.phase1_complete r c, DSEvent.reasoning_end]).get? j =
        some (DSEvent.phase1_complete r' c') → j = pre.length := by
    intro j r' c' hj
    by_cases hlt : j < pre.length
    · rw [List.get?_append hlt] at hj
      have := hpre _ (List.get?_mem hj)
      simp [isP1Complete] at this
    · have hge : pre.length ≤ j := Nat.le_of_not_lt hlt
      rw [List.get?_append_right hge] at hj
      have hk : j - pre.length = 0 ∨ j - pre.length = 1 ∨
          2 ≤ j - pre.length := by omega
      rcases hk with hk | hk | hk
      · omega
      · rw [hk] at hj
        simp at hj
      · have hnone : ([DSEvent.phase1_complete r c, DSEvent.reasoning_end] :
            List DSEvent).get? (j - pre.length) = none := by
          rw [List.get?_eq_none]
          simpa using hk
        rw [hnone] at hj
        cases hj
  constructor
  · intro i r' c' hi
    have hip := hidx i r' c' hi
    subst hip
    rw [List.get?_append_right (by omega)]
    have h1 : pre.length + 1 - pre.length = 1 := by omega
    rw [h1]
    rfl
  · intro i j s r' c' hi hj
    have hjp := hidx j r' c' hj
    subst hjp
    by_cases hlt : i < pre.length
    · exact hlt
    · exfalso
      have hge : pre.length ≤ i := Nat.le_of_not_lt hlt
      rw [List.get?_append_right hge] at hi
      have hk : i - pre.length = 0 ∨ i - pre.length = 1 ∨
          2 ≤ i - pre.length := by omega
      rcases hk with hk | hk | hk
      · rw [hk] at hi
        simp at hi
      · rw [hk] at hi
        simp at hi
      · have hnone : ([DSEvent.phase1_complete r c, DSEvent.reasoning_end] :
            List DSEvent).get? (i - pre.length) = none := by
          rw [List.get?_eq_none]
          simpa using hk
        rw [hnone] at hi
        cases hi

/-- C8 amended: when a delta-bearing frame fires the completion signal (the
end-of-reasoning flag, or finish_reason "stop") as the LAST frame of the
stream, and no earlier frame emitted a phase1_complete, the decoder's output
ends with `phase1_complete` — carrying the accumulated reasoning (empty string
when no reasoning was ever seen) and the accumulated content — immediately
followed by `reasoning_end`; no other phase1_complete is emitted, every
phase1_complete is immediately followed by reasoning_end, and every reasoning
event precedes the phase1_complete event. -/
theorem c8_amended_completion_events (fs : List DSFrame) (f : DSFrame)
    (d : DSDelta) (hd : f.delta = some d)
    (hpre : ∀ e ∈ (decodeFrames DSState.init fs).2, isP1Complete e = false)
    (hfire : ((processContentKey
          (processReasoningKey (decodeFrames DSState.init fs).1 d).1 d).1.reasoning_completed
        || f.finish_reason == some "stop") = true) :
    ∃ pre,
      dsDecode (fs ++ [f]) = pre ++
        [DSEvent.phase1_complete
            (if (decodeFrames DSState.init (fs ++ [f])).1.has_valid_reasoning
             then (decodeFrames DSState.init (fs ++ [f])).1.reasoning_content
             else "")
            (decodeFrames DSState.init (fs ++ [f])).1.accumulated_content,
          DSEvent.reasoning_end] ∧
      (∀ e ∈ pre, isP1Complete e = false) ∧
      p1cImmediatelyFollowed (dsDecode (fs ++ [f])) ∧
      reasoningPrecedesP1c (dsDecode (fs ++ [f])) := by
  have hsplit := decodeFrames_append DSState.init fs [f]
  have hsingle := decodeFrames_single (decodeFrames DSState.init fs).1 f
  have hframe := processFrame_eq_some (decodeFrames DSState.init fs).1 f d hd
  rw [if_pos hfire] at hframe
  have hstate : (decodeFrames DSState.init (fs ++ [f])).1 =
      (processContentKey
        (processReasoningKey (decodeFrames DSState.init fs).1 d).1 d).1 := by
    rw [hsplit]
    dsimp only
    rw [hsingle]
    dsimp only
    rw [hframe]
  have hevents : dsDecode (fs ++ [f]) =
      ((decodeFrames DSState.init fs).2 ++
        ((processReasoningKey (decodeFrames DSState.init fs).1 d).2 ++
          (processContentKey
            (processReasoningKey (decodeFrames DSState.init fs).1 d).1 d).2)) ++
        [DSEvent.phase1_complete
            (if (decodeFrames DSState.init (fs ++ [f])).1.has_valid_reasoning
             then (decodeFrames DSState.init (fs ++ [f])).1.reasoning_content
             else "")
            (decodeFrames DSState.init (fs ++ [f])).1.accumulated_content,
          DSEvent.reasoning_end] := by
    unfold dsDecode
    rw [hsplit]
    dsimp only
    rw [hsingle]
    dsimp only
    rw [hframe]
    dsimp only
    rw [← hstate]
    simp [List.append_assoc]
  refine ⟨(decodeFrames DSState.init fs).2 ++
      ((processReasoningKey (decodeFrames DSState.init fs).1 d).2 ++
        (processContentKey
          (processReasoningKey (decodeFrames DSState.init fs).1 d).1 d).2),
    hevents, ?_, ?_, ?_⟩
  · intro e he
    rcases List.mem_append.mp he with he | he
    · exact hpre e he
    · rcases List.mem_append.mp he with he | he
      · exact processReasoningKey_no_p1c _ d e he
      · exact processContentKey_no_p1c _ d e he
  · rw [hevents]
    refine (p1c_tail_shape _ _ _ ?_).1
    intro e he
    rcases List.mem_append.mp he with he | he
    · exact hpre e he
    · rcases List.mem_append.mp he with he | he
      · exact processReasoningKey_no_p1c _ d e he
      · exact processContentKey_no_p1c _ d e he
  · rw [hevents]
    refine (p1c_tail_shape _ _ _ ?_).2
    intro e he
    rcases List.mem_append.mp he with he | he
    · exact hpre e he
    · rcases List.mem_append.mp he with he | he
      · exact processReasoningKey_no_p1c _ d e he
      · exact processContentKey_no_p1c _ d e he

/-- Closed instance of the amended C8 at a concrete two-frame stream whose
final frame carries finish_reason "stop". -/
theorem c8_witness :
    (∀ e ∈ (decodeFrames DSState.init
        [DSFrame.mk (some (DSDelta.mk (some "A") none)) none]).2,
      isP1Complete e = false) ∧
    (∃ pre,
      dsDecode ([DSFrame.mk (some (DSDelta.mk (some "A") none)) none] ++
          [DSFrame.mk (some (DSDelta.mk (some "") none)) (some "stop")]) = pre ++
        [DSEvent.phase1_complete
            (if (decodeFrames DSState.init
                ([DSFrame.mk (some (DSDelta.mk (some "A") none)) none] ++
                  [DSFrame.mk (some (DSDelta.mk (some "") none)) (some "stop")])).1.has_valid_reasoning
             then (decodeFrames DSState.init
                ([DSFrame.mk (some (DSDelta.mk (some "A") none)) none] ++
                  [DSFrame.mk (some (DSDelta.mk (some "") none)) (some "stop")])).1.reasoning_content
             else "")
            (decodeFrames DSState.init
              ([DSFrame.mk (some (DSDelta.mk (some "A") none)) none] ++
                [DSFrame.mk (some (DSDelta.mk (some "") none)) (some "stop")])).1.accumulated_content,
          DSEvent.reasoning_end] ∧
      (∀ e ∈ pre, isP1Complete e = false) ∧
      p1cImmediatelyFollowed
        (dsDecode ([DSFrame.mk (some (DSDelta.mk (some "A") none)) none] ++
          [DSFrame.mk (some (DSDelta.mk (some "") none)) (some "stop")])) ∧
      reasoningPrecedesP1c
        (dsDecode ([DSFrame.mk (some (DSDelta.mk (some "A") none)) none] ++
          [DSFrame.mk (some (DSDelta.mk (some "") none)) (some "stop")]))) :=
  ⟨by decide,
    c8_amended_completion_events
      [DSFrame.mk (some (DSDelta.mk (some "A") none)) none]
      (DSFrame.mk (some (DSDelta.mk (some "") none)) (some "stop"))
      (DSDelta.mk (some "") none) rfl (by decide) (by decide)⟩

/-!
## Phase executors and the orchestrator `process` (claims C1, C2, C4, C7)
-/

/-- Backend reply of `DeepSeekClient.nonstream_chat` as
`_process_phase1_nonstream` reads it: the `"reasoning"` and `"content"`
entries, with `""` standing for a missing key (which `result.get` makes
falsy); an error reply carries neither. -/
structure DSResult where
  reasoning : String
  content : String
  deriving Repr, DecidableEq

/-- Breakdown of one successful attempt of `_process_phase1_nonstream`
(workflow.py lines 466-500): the reasoning (or, failing that, the content) is
stored and replayed as a reasoning event, the content is stored and yielded,
and the phase is marked executed and succeeded. -/
def phase1NonstreamSuccess (wi : WorkflowInfo) (r : DSResult) :
    WorkflowInfo × List Event :=
  let step1 :=
    if r.reasoning ≠ "" then
      (((wi.update_reasoning r.reasoning "nonstream").set_reasoning_method
          "nonstream"),
        [(⟨"reasoning", r.reasoning, none, none⟩ : Event)])
    else if r.content ≠ "" then
      (((wi.update_reasoning r.content "nonstream").set_reasoning_method
          "nonstream"),
        [(⟨"reasoning", r.content, none, none⟩ : Event)])
    else (wi, [])
  let step2 :=
    if r.content ≠ "" then
      ((step1.1).set_content r.content,
        step1.2 ++ [(⟨"content", r.content, none, none⟩ : Event)])
    else step1
  (((step2.1).mark_phase_executed "phase1_nonstream").mark_phase_succeeded
      "phase1_nonstream",
    step2.2)

/-- Retry loop of `_process_phase1_nonstream` (workflow.py lines 444-550),
fed by the oracle list of successive backend replies (the exception-free
path).  The loop guard is `while retry_count <= 0`; `retry_count` starts at 0
and is incremented on every failed attempt, so the guard fails right after
the first failure; the `retry_count <= 0` branch after the increment (the
"attempt #N" error of lines 504-509) is therefore unreachable, and on loop
exit the trailing "All attempts ..." error of lines 544-550 is yielded.
Returns the tracker, the yielded events, and the number of backend attempts
consumed.  (An exhausted oracle list also just ends the loop: the claims
below always supply enough attempts.) -/
def phase1NonstreamGo : List DSResult → Int → WorkflowInfo →
    WorkflowInfo × List Event × Nat
  | [], _, wi =>
    (wi, [⟨"error", "All attempts to obtain reasoning content failed",
      none, none⟩], 0)
  | r :: rest, retry_count, wi =>
    if retry_count > 0 then
      (wi, [⟨"error", "All attempts to obtain reasoning content failed",
        none, none⟩], 0)
    else if pyTruthy r.reasoning || pyTruthy r.content then
      let s := phase1NonstreamSuccess wi r
      (s.1, s.2, 1)
    else
      let rc2 := retry_count + 1
      let ev : Event :=
        if rc2 ≤ 0 then
          ⟨"error", "Non-streaming reasoning returned empty content, attempt #"
            ++ toString rc2 ++ "...", none, none⟩
        else
          ⟨"error", "Non-streaming reasoning repeatedly returned empty content",
            none, none⟩
      let rec1 := phase1NonstreamGo rest rc2 wi
      (rec1.1, ev :: rec1.2.1, rec1.2.2 + 1)

/-- Entry point of `_process_phase1_nonstream`: the loop starts with
`retry_count = 0`. -/
def processPhase1Nonstream (wi : WorkflowInfo) (attempts : List DSResult) :
    WorkflowInfo × List Event × Nat :=
  phase1NonstreamGo attempts 0 wi

/-- C2 at the claim's scenario: the first attempt returns empty content and a
second attempt would return "hello", yet the executor consumes only one
attempt, emits the two terminal error events, performs no retry, and never
marks the phase succeeded — the configured `retry_num` is never consulted by
workflow.py. -/
theorem c2_retry_loop_never_retries :
    processPhase1Nonstream WorkflowInfo.init
        [DSResult.mk "" "", DSResult.mk "" "hello"] =
      (WorkflowInfo.init,
        [⟨"error", "Non-streaming reasoning repeatedly returned empty content",
          none, none⟩,
         ⟨"error", "All attempts to obtain reasoning content failed",
          none, none⟩],
        1) ∧
    "phase1_nonstream" ∉
      (processPhase1Nonstream WorkflowInfo.init
          [DSResult.mk "" "", DSResult.mk "" "hello"]).1.phases_succeeded := by
  constructor
  · decide
  · decide

/-- Assistant-context selection of `_process_phase2_stream` (workflow.py line
600): the phase-1 reasoning if truthy and non-blank, else the phase-1 content
if truthy and non-blank, else the empty string. -/
def phase2StreamAssistantMessage (wi : WorkflowInfo) : String :=
  let reasoning_content := wi.get_reasoning_content
  let content := wi.get_content
  if pyTruthyOpt reasoning_content &&
      pyTruthy (pyStrip (reasoning_content.getD "")) then
    reasoning_content.getD ""
  else if pyTruthyOpt content && pyTruthy (pyStrip (content.getD "")) then
    content.getD ""
  else ""

/-- Claim C4's formula, written from the spec's words for comparison: the
accumulated phase-1 reasoning when non-empty after stripping whitespace, else
the accumulated phase-1 content when non-empty after stripping, else the
empty string. -/
def specAssistantContext (wi : WorkflowInfo) : String :=
  if pyStrip ((wi.reasoning_content).getD "") ≠ "" then
    (wi.reasoning_content).getD ""
  else if pyStrip ((wi.content).getD "") ≠ "" then
    (wi.content).getD ""
  else ""

theorem pyTruthy_iff (s : String) : pyTruthy s = true ↔ s ≠ "" := by
  simp [pyTruthy]

theorem truthy_strip_pick (o : Option String) :
    (pyTruthyOpt o && pyTruthy (pyStrip (o.getD ""))) =
      pyTruthy (pyStrip (o.getD "")) := by
  cases o with
  | none => decide
  | some s =>
    by_cases hs : s = ""
    · subst hs
      decide
    · simp [pyTruthyOpt, pyTruthy, hs]

theorem phase2StreamAssistantMessage_eq_spec (wi : WorkflowInfo) :
    phase2StreamAssistantMessage wi = specAssistantContext wi := by
  unfold phase2StreamAssistantMessage specAssistantContext
    WorkflowInfo.get_reasoning_content WorkflowInfo.get_content
  dsimp only
  rw [truthy_strip_pick, truthy_strip_pick]
  by_cases h1 : pyStrip ((wi.reasoning_content).getD "") ≠ ""
  · rw [if_pos ((pyTruthy_iff _).mpr h1), if_pos h1]
  · rw [if_neg (fun hc => h1 ((pyTruthy_iff _).mp hc)), if_neg h1]
    by_cases h2 : pyStrip ((wi.content).getD "") ≠ ""
    · rw [if_pos ((pyTruthy_iff _).mpr h2), if_pos h2]
    · rw [if_neg (fun hc => h2 ((pyTruthy_iff _).mp hc)), if_neg h2]

/-- One run of `_process_phase2_stream` (workflow.py lines 552-717) whose
backend stream yields `chunks` and raises nothing: the retry loop makes one
attempt; each chunk is forwarded as a `summary` event and `summary_end` is
yielded; on non-blank accumulated content the phase is marked succeeded (once
in the loop, line 646, and once after it, line 703); otherwise `retry_count`
becomes 1, the `retry_count <= 0` branch is dead, the terminal error is
emitted, the phase is marked failed (lines 667 and 706) and, when phase-1
reasoning exists, the fallback error of lines 710-717 is yielded.  Returns
the tracker, the yielded events, and the assistant message passed to
`stream_chat`. -/
def processPhase2Stream (wi : WorkflowInfo) (chunks : List String) :
    WorkflowInfo × List Event × String :=
  let reasoning_content := wi.get_reasoning_content
  let assistant_message := phase2StreamAssistantMessage wi
  let summary_content := strConcat chunks
  let evs := chunks.map (fun c => (⟨"summary", c, none, none⟩ : Event)) ++
    [(⟨"summary_end", "", none, none⟩ : Event)]
  if pyTruthy summary_content && (pyStrip summary_content ≠ "None") then
    (((wi.mark_phase_succeeded "phase2_stream").mark_phase_succeeded
        "phase2_stream"),
      evs, assistant_message)
  else
    let wi1 := (wi.mark_phase_failed "phase2_stream"
        (some "Streaming summary repeatedly returned empty content")).mark_phase_failed
      "phase2_stream" (some "Unable to obtain summary content")
    let evs1 := evs ++ [(⟨"error",
      "Streaming summary repeatedly returned empty content",
      some "phase2_stream", none⟩ : Event)]
    if pyTruthyOpt reasoning_content then
      (wi1, evs1 ++ [(⟨"error",
          "Unable to obtain summary content, using reasoning content as response",
          some "phase2", none⟩ : Event)],
        assistant_message)
    else (wi1, evs1, assistant_message)

theorem processPhase2Stream_assistant (wi : WorkflowInfo)
    (chunks : List String) :
    (processPhase2Stream wi chunks).2.2 = phase2StreamAssistantMessage wi := by
  unfold processPhase2Stream
  dsimp only
  by_cases h1 : (pyTruthy (strConcat chunks) &&
      (pyStrip (strConcat chunks) ≠ "None")) = true
  · rw [if_pos h1]
  · rw [if_neg h1]
    by_cases h2 : pyTruthyOpt wi.get_reasoning_content = true
    · rw [if_pos h2]
    · rw [if_neg h2]

/-- Python exception value. -/
inductive PyExc where
  | attributeError (msg : String)
  deriving Repr, DecidableEq

/-- Body of one attempt of `_process_phase2_nonstream` (workflow.py lines
740-804): its first statement is `workflow_info.get_reasoning()`, but
`WorkflowInfo` (workflow_info.py) defines `get_reasoning_content` and no
method named `get_reasoning`, so the attempt raises AttributeError before the
OpenAI-compatible backend request is built; nothing after that line runs. -/
def phase2NonstreamAttemptBody (_wi : WorkflowInfo) :
    Except PyExc (Event × Bool) :=
  Except.error (PyExc.attributeError
    "\x27WorkflowInfo\x27 object has no attribute \x27get_reasoning\x27")

/-- One run of `_process_phase2_nonstream` (workflow.py lines 719-822): the
sole attempt raises, the `except` clause increments `retry_count` to 1, and —
the `retry_count <= 0` branch being dead — the "repeatedly failed" error
dictionary of lines 817-822 is returned.  The boolean records whether a
backend request was issued. -/
def processPhase2Nonstream (wi : WorkflowInfo) : Event × Bool :=
  match phase2NonstreamAttemptBody wi with
  | Except.ok r => r
  | Except.error (PyExc.attributeError msg) =>
    (⟨"error", "Non-streaming summary repeatedly failed: " ++ msg, none, none⟩,
      false)

/-- C4: in the streaming variant the assistant-context message passed to the
phase-2 backend equals the claim's reasoning-else-content-else-empty formula
(and the call is made even when phase 1 left nothing); but the non-streaming
variant never reaches the backend: it calls the nonexistent
`WorkflowInfo.get_reasoning`, the AttributeError is swallowed, and an error
dictionary is returned with no request issued. -/
theorem c4_phase2_assistant_context (wi : WorkflowInfo)
    (chunks : List String) :
    (processPhase2Stream wi chunks).2.2 = specAssistantContext wi ∧
    (processPhase2Nonstream wi).2 = false ∧
    (processPhase2Nonstream wi).1.type = "error" ∧
    (processPhase2Nonstream wi).1.content =
      "Non-streaming summary repeatedly failed: \x27WorkflowInfo\x27 object has no attribute \x27get_reasoning\x27" := by
  refine ⟨?_, rfl, rfl, rfl⟩
  rw [processPhase2Stream_assistant, phase2StreamAssistantMessage_eq_spec]

/-- Per-phase step entry as `process` consumes it: only the `stream` flag is
read (workflow.py lines 97 and 110); the configured `retry_num` is never
consulted by workflow.py. -/
structure StepConfig where
  stream : Bool
  deriving Repr, DecidableEq

/-- The `process` generator (workflow.py lines 55-136).  The streaming
phase-1 executor is abstracted as an oracle function (no claim depends on its
internals); the non-streaming phase-1 executor consumes `phase1Attempts`; the
streaming phase-2 executor consumes `phase2Chunks`.  Returns the final
tracker, the yielded events, and the names of the backend requests issued. -/
def processRun (phase1_steps phase2_steps : List StepConfig)
    (phase1StreamExec : WorkflowInfo → WorkflowInfo × List Event × List String)
    (phase1Attempts : List DSResult) (phase2Chunks : List String) :
    WorkflowInfo × List Event × List String :=
  let wi := WorkflowInfo.init
  match phase2_steps with
  | [] =>
    (wi.mark_phase_failed "workflow"
        (some "Invalid workflow configuration: missing phase2 step configurations"),
      [⟨"error",
        "Workflow processing failed: Invalid workflow configuration: missing phase2 step configurations",
        none, none⟩],
      [])
  | phase2_settings :: _ =>
    let r1 :=
      match phase1_steps with
      | [] => (wi, ([] : List Event), ([] : List String))
      | phase1_settings :: _ =>
        if phase1_settings.stream then phase1StreamExec wi
        else
          let r := processPhase1Nonstream wi phase1Attempts
          (r.1, r.2.1, List.replicate r.2.2 "deepseek")
    if phase2_settings.stream then
      let r2 := processPhase2Stream r1.1 phase2Chunks
      let wifin := (r2.1).finalize (r2.1).success (some "")
      (wifin, r1.2.1 ++ r2.2.1, r1.2.2 ++ ["openai-compatible"])
    else
      let r2 := processPhase2Nonstream r1.1
      let wi2 := (r1.1).mark_phase_executed "phase2_nonstream"
      let wi3 :=
        if (r2.1).type ≠ "error" then
          wi2.mark_phase_succeeded "phase2_nonstream"
        else wi2.mark_phase_failed "phase2_nonstream" (some (r2.1).content)
      let wifin := wi3.finalize wi3.success (some "")
      (wifin, r1.2.1 ++ [r2.1],
        r1.2.2 ++ (if r2.2 then ["openai-compatible"] else []))

/-- C1 at the failing input: a run with phase 1 unconfigured and streaming
phase 2 obtaining "hello" marks phase2_stream succeeded, yet the finalized
tracker has success = false, because `process` finalizes with the tracker's
own `success` flag (workflow.py line 127) and nothing ever sets that flag to
true before `finalize` runs. -/
theorem c1_finalized_success_flag :
    "phase2_stream" ∈
      (processRun [] [StepConfig.mk true] (fun wi => (wi, [], []))
          [] ["hello"]).1.phases_succeeded ∧
    (processRun [] [StepConfig.mk true] (fun wi => (wi, [], []))
        [] ["hello"]).1.success = false := by
  constructor
  · decide
  · decide

/-- C7: with an empty phase-2 step list, `process` raises the configuration
ValueError (workflow.py line 88) before any phase executor runs; the outer
handler (lines 129-136) records the failure on the "workflow" phase and
yields a single error event.  No backend request is issued for either phase
and nothing is retried, whatever the phase-1 configuration and the backend
oracles are. -/
theorem c7_empty_phase2_refuses_to_start (phase1_steps : List StepConfig)
    (exec : WorkflowInfo → WorkflowInfo × List Event × List String)
    (attempts : List DSResult) (chunks : List String) :
    processRun phase1_steps [] exec attempts chunks =
      (WorkflowInfo.init.mark_phase_failed "workflow"
          (some "Invalid workflow configuration: missing phase2 step configurations"),
        [⟨"error",
          "Workflow processing failed: Invalid workflow configuration: missing phase2 step configurations",
          none, none⟩],
        []) := rfl

/-!
## Summarization-backend stream decoder (claim C9)

Embedding of `OpenAICompatibleClient._process_stream_response`
(openai_compatible_client.py lines 94-213) at the byte level: a read is a
`List Char` chunk of the decoded response body; the decoder keeps a
carry-over buffer, splits complete newline-terminated lines off it, and
processes each stripped line.  `json.loads` is modelled by a small JSON
parser (`jParse`); escape sequences other than the single-character ones and
exact number syntax are not modelled — the claims below never exercise them.
-/

abbrev Chars := List Char

def strToChars (s : String) : Chars := s.data

def lbrace : Char := Char.ofNat 123

def rbrace : Char := Char.ofNat 125

/-- JSON values; numbers keep their raw character run. -/
inductive JVal where
  | jnull
  | jbool (b : Bool)
  | jnum (raw : Chars)
  | jstr (s : Chars)
  | jarr (items : List JVal)
  | jobj (fields : List (Chars × JVal))
  deriving Repr

/-- JSON whitespace. -/
def isJsonWs (c : Char) : Bool := c = ' ' || c = '\t' || c = '\n' || c = '\r'

def skipWs : Chars → Chars
  | [] => []
  | c :: cs => if isJsonWs c then skipWs cs else c :: cs

/-- Single-character JSON escapes (backslash-u escapes unmodelled). -/
def escDecode (c : Char) : Option Char :=
  if c = 'n' then some '\n'
  else if c = 't' then some '\t'
  else if c = 'r' then some '\r'
  else if c = '"' then some '"'
  else if c = '\\' then some '\\'
  else if c = '/' then some '/'
  else if c = 'b' then some (Char.ofNat 8)
  else if c = 'f' then some (Char.ofNat 12)
  else none

/-- Parse the body of a JSON string after the opening quote; returns the
decoded content and the remainder after the closing quote. -/
def parseStringBody : Chars → Option (Chars × Chars)
  | [] => none
  | '"' :: rest => some ([], rest)
  | '\\' :: c :: rest =>
    match escDecode c with
    | none => none
    | some ch =>
      match parseStringBody rest with
      | none => none
      | some (s, r) => some (ch :: s, r)
  | c :: rest =>
    match parseStringBody rest with
    | none => none
    | some (s, r) => some (c :: s, r)

def isNumChar (c : Char) : Bool :=
  c.isDigit || c = '-' || c = '+' || c = '.' || c = 'e' || c = 'E'

/-- Longest numeric-character run at the head. -/
def spanNum : Chars → Chars × Chars
  | [] => ([], [])
  | c :: cs =>
    if isNumChar c then
      let r := spanNum cs
      (c :: r.1, r.2)
    else ([], c :: cs)

mutual

/-- Fuel-bounded JSON value parser; `jParse` supplies sufficient fuel. -/
def parseValue : Nat → Chars → Option (JVal × Chars)
  | 0, _ => none
  | fuel + 1, cs =>
    match skipWs cs with
    | [] => none
    | c :: rest =>
      if c = '"' then
        match parseStringBody rest with
        | none => none
        | some (s, r) => some (JVal.jstr s, r)
      else if c = lbrace then parseObjBody fuel rest
      else if c = '[' then parseArrBody fuel rest
      else if c = 't' then
        match rest with
        | 'r' :: 'u' :: 'e' :: r => some (JVal.jbool true, r)
        | _ => none
      else if c = 'f' then
        match rest with
        | 'a' :: 'l' :: 's' :: 'e' :: r => some (JVal.jbool false, r)
        | _ => none
      else if c = 'n' then
        match rest with
        | 'u' :: 'l' :: 'l' :: r => some (JVal.jnull, r)
        | _ => none
      else if c = '-' || c.isDigit then
        match spanNum (c :: rest) with
        | (raw, r) => some (JVal.jnum raw, r)
      else none

/-- Object body after the opening brace. -/
def parseObjBody : Nat → Chars → Option (JVal × Chars)
  | 0, _ => none
  | fuel + 1, cs =>
    match skipWs cs with
    | [] => none
    | c :: rest =>
      if c = rbrace then some (JVal.jobj [], rest)
      else parseMembers fuel (c :: rest) []

/-- Comma-separated object members up to the closing brace. -/
def parseMembers : Nat → Chars → List (Chars × JVal) →
    Option (JVal × Chars)
  | 0, _, _ => none
  | fuel + 1, cs, acc =>
    match skipWs cs with
    | '"' :: rest =>
      match parseStringBody rest with
      | none => none
      | some (key, r1) =>
        match skipWs r1 with
        | ':' :: r2 =>
          match parseValue fuel r2 with
          | none => none
          | some (v, r3) =>
            match skipWs r3 with
            | [] => none
            | c :: r4 =>
              if c = ',' then parseMembers fuel r4 (acc ++ [(key, v)])
              else if c = rbrace then
                some (JVal.jobj (acc ++ [(key, v)]), r4)
              else none
        | _ => none
    | _ => none

/-- Array body after the opening bracket. -/
def parseArrBody : Nat → Chars → Option (JVal × Chars)
  | 0, _ => none
  | fuel + 1, cs =>
    match skipWs cs with
    | [] => none
    | c :: rest =>
      if c = ']' then some (JVal.jarr [], rest)
      else parseItems fuel (c :: rest) []

/-- Comma-separated array items up to the closing bracket. -/
def parseItems : Nat → Chars → List JVal → Option (JVal × Chars)
  | 0, _, _ => none
  | fuel + 1, cs, acc =>
    match parseValue fuel cs with
    | none => none
    | some (v, r1) =>
      match skipWs r1 with
      | [] => none
      | c :: r2 =>
        if c = ',' then parseItems fuel r2 (acc ++ [v])
        else if c = ']' then some (JVal.jarr (acc ++ [v]), r2)
        else none

end

/-- Model of `json.loads`: one JSON document, trailing whitespace allowed. -/
def jParse (cs : Chars) : Option JVal :=
  match parseValue (cs.length + 8) cs with
  | none => none
  | some (v, rest) => if skipWs rest = [] then some v else none

/-- Dictionary lookup on parsed object fields (last binding wins, as in
`json.loads`). -/
def jGet (fields : List (Chars × JVal)) (key : Chars) : Option JVal :=
  fields.foldl (fun acc p => if p.1 = key then some p.2 else acc) none

/-- Python truthiness of a JSON value (for numbers: some nonzero digit — an
approximation that only feeds the crash paths below). -/
def jTruthy : JVal → Bool
  | JVal.jnull => false
  | JVal.jbool b => b
  | JVal.jnum raw => raw.any (fun c => c.isDigit && c ≠ '0')
  | JVal.jstr s => s ≠ []
  | JVal.jarr l => !l.isEmpty
  | JVal.jobj f => !f.isEmpty

/-- Substring test, as the Python `in` operator on strings. -/
def isSubstring (needle : Chars) : Chars → Bool
  | [] => needle.isEmpty
  | c :: cs => List.isPrefixOf needle (c :: cs) || isSubstring needle cs

/-- First `parts[].text` value among dictionary parts, else `""`
(openai_compatible_client.py lines 243-246). -/
def partsFirstText : List JVal → JVal
  | [] => JVal.jstr []
  | JVal.jobj pf :: rest =>
    match jGet pf (strToChars "text") with
    | some tv => tv
    | none => partsFirstText rest
  | _ :: rest => partsFirstText rest

/-- Tail of `_extract_content_from_delta` once the `content` probe failed:
the `parts` probe (lines 243-249).  `none` models a raised exception
(iterating a truthy number or boolean). -/
def extractParts (fields : List (Chars × JVal)) : Option JVal :=
  match jGet fields (strToChars "parts") with
  | some pv =>
    if jTruthy pv then
      match pv with
      | JVal.jarr items => some (partsFirstText items)
      | JVal.jstr _ => some (JVal.jstr [])
      | JVal.jobj _ => some (JVal.jstr [])
      | _ => none
    else some (JVal.jstr [])
  | none => some (JVal.jstr [])

/-- The `text` probe (lines 239-241). -/
def extractText (fields : List (Chars × JVal)) : Option JVal :=
  match jGet fields (strToChars "text") with
  | some tv =>
    match tv with
    | JVal.jnull => extractParts fields
    | _ => some tv
  | none => extractParts fields

/-- The `tool_calls` probe (lines 231-236). -/
def extractToolCalls (fields : List (Chars × JVal)) : Option JVal :=
  match jGet fields (strToChars "tool_calls") with
  | some tv =>
    if jTruthy tv then some (JVal.jstr (strToChars "[工具调用]"))
    else extractText fields
  | none => extractText fields

/-- `_extract_content_from_delta` (openai_compatible_client.py lines
215-255); `none` models a raised exception. -/
def extractDeltaVal : JVal → Option JVal
  | JVal.jobj fields =>
    match jGet fields (strToChars "content") with
    | some v =>
      match v with
      | JVal.jnull => extractToolCalls fields
      | _ => some v
    | none => extractToolCalls fields
  | JVal.jstr s => some (JVal.jstr s)
  | _ => some (JVal.jstr [])

/-- Effect of processing one complete stripped line. -/
inductive LineEffect where
  | nothing
  | emit (s : Chars)
  | emitBreak (s : Chars)
  | brk
  | crash
  deriving Repr, DecidableEq

/-- The `finish_reason in ["stop", "length"]` check (line 160). -/
def finishBreak (cf : List (Chars × JVal)) : Bool :=
  match jGet cf (strToChars "finish_reason") with
  | some (JVal.jstr fr) =>
    fr = strToChars "stop" || fr = strToChars "length"
  | _ => false

/-- Delta handling of one frame whose first choice is the dictionary `cf`
(lines 147-161): extract content; a truthy non-string value makes the
subsequent `len`/`+=` raise (crash); a non-empty string is yielded; then the
finish-reason check may break the drain loop. -/
def deltaEffect (cf : List (Chars × JVal)) : LineEffect :=
  let delta := (jGet cf (strToChars "delta")).getD (JVal.jobj [])
  match extractDeltaVal delta with
  | none => LineEffect.crash
  | some content =>
    match content with
    | JVal.jstr s =>
      if s ≠ [] then
        if finishBreak cf then LineEffect.emitBreak s else LineEffect.emit s
      else
        if finishBreak cf then LineEffect.brk else LineEffect.nothing
    | other =>
      if jTruthy other then LineEffect.crash
      else if finishBreak cf then LineEffect.brk else LineEffect.nothing

/-- The `len(data["choices"]) > 0` / `data["choices"][0]` handling (lines
145-147): empty collections fail the guard; a non-dictionary first choice (or
an unsizeable choices value, or subscripting a dictionary/string) raises. -/
def choicesEffect : JVal → LineEffect
  | JVal.jarr [] => LineEffect.nothing
  | JVal.jarr (JVal.jobj cf :: _) => deltaEffect cf
  | JVal.jarr (_ :: _) => LineEffect.crash
  | JVal.jobj [] => LineEffect.nothing
  | JVal.jobj (_ :: _) => LineEffect.crash
  | JVal.jstr [] => LineEffect.nothing
  | JVal.jstr (_ :: _) => LineEffect.crash
  | _ => LineEffect.crash

/-- The `"choices" in data` probe (line 145): membership works on
dictionaries, lists and strings (subscripting the latter two then raises);
on numbers, booleans and null the `in` operator itself raises. -/
def payloadEffect : JVal → LineEffect
  | JVal.jobj fields =>
    match jGet fields (strToChars "choices") with
    | none => LineEffect.nothing
    | some cv => choicesEffect cv
  | JVal.jarr items =>
    if items.any (fun x =>
        match x with
        | JVal.jstr s => s = strToChars "choices"
        | _ => false) then LineEffect.crash
    else LineEffect.nothing
  | JVal.jstr s =>
    if isSubstring (strToChars "choices") s then LineEffect.crash
    else LineEffect.nothing
  | _ => LineEffect.crash

/-- Processing of one complete line of the inner `while` loop (lines
126-168), after stripping: empty lines are skipped, `data: [DONE]` breaks,
other `data:` lines are parsed (JSON errors are skipped), anything else is
ignored. -/
def processLine (cl : Chars) : LineEffect :=
  if cl = [] then LineEffect.nothing
  else if cl = strToChars "data: [DONE]" then LineEffect.brk
  else if List.isPrefixOf (strToChars "data: ") cl then
    match jParse (cl.drop 6) with
    | none => LineEffect.nothing
    | some data => payloadEffect data
  else LineEffect.nothing

/-- Split a buffer at its first newline: `buffer.split('\n', 1)`. -/
def splitFirstNl : Chars → Option (Chars × Chars)
  | [] => none
  | c :: cs =>
    if c = '\n' then some ([], cs)
    else (splitFirstNl cs).map (fun p => (c :: p.1, p.2))

def nlCount (b : Chars) : Nat := b.countP (fun c => c = '\n')

/-- The inner `while '\n' in buffer` loop of one read (lines 126-168),
realised with structural recursion on a fuel bounded below by the newline
count (each iteration consumes one newline).  A break (`[DONE]` or a
terminal finish_reason) or a raised exception leaves the remaining buffer
for the next read; the per-read `except ... continue` makes a crash
behave like a break with no emission. -/
def drainGo : Nat → Chars → Chars × List Chars
  | 0, buffer => (buffer, [])
  | fuel + 1, buffer =>
    (splitFirstNl buffer).elim (buffer, []) (fun p =>
      match processLine (pyStripChars p.1) with
      | LineEffect.nothing => drainGo fuel p.2
      | LineEffect.emit s =>
        ((drainGo fuel p.2).1, s :: (drainGo fuel p.2).2)
      | LineEffect.emitBreak s => (p.2, [s])
      | LineEffect.brk => (p.2, [])
      | LineEffect.crash => (p.2, []))

def drain (buffer : Chars) : Chars × List Chars :=
  drainGo (nlCount buffer + 1) buffer

/-- Fold of the decoder over the successive reads (the `async for line in
response.content` loop, line 113): each read is appended to the carry-over
buffer and the complete lines are drained. -/
def feedReads : Chars → List Chars → Chars × List Chars
  | buffer, [] => (buffer, [])
  | buffer, r :: rs =>
    ((feedReads (drain (buffer ++ r)).1 rs).1,
      (drain (buffer ++ r)).2 ++ (feedReads (drain (buffer ++ r)).1 rs).2)

/-- Processing of the remaining buffer after the last read (lines 177-194):
a single leftover `data:` line may still be parsed and emitted; every
exception there is swallowed. -/
def processTrailing (buffer : Chars) : List Chars :=
  let sb := pyStripChars buffer
  if sb ≠ [] ∧ List.isPrefixOf (strToChars "data: ") sb ∧
      sb ≠ strToChars "data: [DONE]" then
    match jParse (sb.drop 6) with
    | none => []
    | some (JVal.jobj fields) =>
      match jGet fields (strToChars "choices") with
      | some (JVal.jarr (JVal.jobj cf :: _)) =>
        match extractDeltaVal ((jGet cf (strToChars "delta")).getD
            (JVal.jobj [])) with
        | some (JVal.jstr s) => if s ≠ [] then [s] else []
        | _ => []
      | _ => []
    | some _ => []
  else []

/-- The whole decoder on a sequence of reads: the emitted content chunks. -/
def decodeOAI (reads : List Chars) : List Chars :=
  (feedReads [] reads).2 ++ processTrailing (feedReads [] reads).1

/-!
### Buffer-reassembly lemmas and claim C9
-/

/-- Complete (newline-terminated) lines of a buffer, fuel-bounded. -/
def completeLinesGo : Nat → Chars → List Chars
  | 0, _ => []
  | fuel + 1, b =>
    (splitFirstNl b).elim [] (fun p => p.1 :: completeLinesGo fuel p.2)

def completeLines (b : Chars) : List Chars :=
  completeLinesGo (nlCount b + 1) b

/-- Text after the last newline of a buffer, fuel-bounded. -/
def lastSegmentGo : Nat → Chars → Chars
  | 0, b => b
  | fuel + 1, b =>
    (splitFirstNl b).elim b (fun p => lastSegmentGo fuel p.2)

def lastSegment (b : Chars) : Chars :=
  lastSegmentGo (nlCount b + 1) b

/-- A complete line is benign when its processing neither breaks the drain
loop nor raises: the decoder then just continues (possibly emitting). -/
def benignLine (l : Chars) : Bool :=
  match processLine (pyStripChars l) with
  | LineEffect.nothing => true
  | LineEffect.emit _ => true
  | _ => false

/-- Chunk emitted for one benign complete line. -/
def emitOf (l : Chars) : List Chars :=
  match processLine (pyStripChars l) with
  | LineEffect.emit s => [s]
  | _ => []

/-- Chunks emitted for the complete lines of a buffer. -/
def emitsOf (b : Chars) : List Chars :=
  ((completeLines b).map emitOf).join

theorem splitFirstNl_sound : ∀ (b l r : Chars),
    splitFirstNl b = some (l, r) → b = l ++ '\n' :: r ∧ '\n' ∉ l := by
  intro b
  induction b with
  | nil =>
    intro l r h
    simp [splitFirstNl] at h
  | cons c cs ih =>
    intro l r h
    simp only [splitFirstNl] at h
    by_cases hc : c = '\n'
    · rw [if_pos hc] at h
      simp only [Option.some.injEq, Prod.mk.injEq] at h
      obtain ⟨h1, h2⟩ := h
      subst h1
      subst h2
      subst hc
      exact ⟨rfl, by simp⟩
    · rw [if_neg hc] at h
      cases hsp : splitFirstNl cs with
      | none =>
        rw [hsp] at h
        simp at h
      | some p =>
        obtain ⟨l1, r1⟩ := p
        rw [hsp] at h
        simp only [Option.map_some', Option.some.injEq, Prod.mk.injEq] at h
        obtain ⟨h1, h2⟩ := h
        subst h1
        subst h2
        obtain ⟨hcs, hnl⟩ := ih l1 r1 hsp
        constructor
        · simp [hcs]
        · intro hmem
          rcases List.mem_cons.mp hmem with h' | h'
          · exact hc h'.symm
          · exact hnl h'

theorem nlCount_some {b l r : Chars} (h : splitFirstNl b = some (l, r)) :
    nlCount b = nlCount r + 1 := by
  obtain ⟨hb, hnl⟩ := splitFirstNl_sound b l r h
  rw [hb]
  unfold nlCount
  rw [List.countP_append, List.countP_cons]
  have h0 : l.countP (fun c => decide (c = '\n')) = 0 := by
    rw [List.countP_eq_zero]
    intro a ha
    simp only [decide_eq_true_eq]
    intro h'
    subst h'
    exact hnl ha
  rw [h0]
  simp

theorem splitFirstNl_append_some : ∀ (x : Chars) {l r : Chars} (y : Chars),
    splitFirstNl x = some (l, r) →
    splitFirstNl (x ++ y) = some (l, r ++ y) := by
  intro x
  induction x with
  | nil =>
    intro l r y h
    simp [splitFirstNl] at h
  | cons c cs ih =>
    intro l r y h
    simp only [splitFirstNl] at h
    have hgoal : c :: cs ++ y = c :: (cs ++ y) := rfl
    rw [hgoal]
    simp only [splitFirstNl]
    by_cases hc : c = '\n'
    · rw [if_pos hc] at h ⊢
      simp only [Option.some.injEq, Prod.mk.injEq] at h
      obtain ⟨h1, h2⟩ := h
      subst h1
      subst h2
      rfl
    · rw [if_neg hc] at h ⊢
      cases hsp : splitFirstNl cs with
      | none =>
        rw [hsp] at h
        simp at h
      | some p =>
        obtain ⟨l1, r1⟩ := p
        rw [hsp] at h
        simp only [Option.map_some', Option.some.injEq, Prod.mk.injEq] at h
        obtain ⟨h1, h2⟩ := h
        subst h1
        subst h2
        rw [ih y hsp]
        rfl

theorem completeLinesGo_succ_none (fuel : Nat) (b : Chars)
    (h : splitFirstNl b = none) : completeLinesGo (fuel + 1) b = [] := by
  conv_lhs => rw [completeLinesGo]
  rw [h]
  rfl

theorem completeLinesGo_succ_some (fuel : Nat) (b l r : Chars)
    (h : splitFirstNl b = some (l, r)) :
    completeLinesGo (fuel + 1) b = l :: completeLinesGo fuel r := by
  conv_lhs => rw [completeLinesGo]
  rw [h]
  rfl

theorem completeLines_none {b : Chars} (h : splitFirstNl b = none) :
    completeLines b = [] :=
  completeLinesGo_succ_none _ b h

theorem completeLines_some {b l r : Chars} (h : splitFirstNl b = some (l, r)) :
    completeLines b = l :: completeLines r := by
  unfold completeLines
  rw [nlCount_some h]
  exact completeLinesGo_succ_some (nlCount r + 1) b l r h

theorem lastSegmentGo_succ_none (fuel : Nat) (b : Chars)
    (h : splitFirstNl b = none) : lastSegmentGo (fuel + 1) b = b := by
  conv_lhs => rw [lastSegmentGo]
  rw [h]
  rfl

theorem lastSegmentGo_succ_some (fuel : Nat) (b l r : Chars)
    (h : splitFirstNl b = some (l, r)) :
    lastSegmentGo (fuel + 1) b = lastSegmentGo fuel r := by
  conv_lhs => rw [lastSegmentGo]
  rw [h]
  rfl

theorem lastSegment_none {b : Chars} (h : splitFirstNl b = none) :
    lastSegment b = b :=
  lastSegmentGo_succ_none _ b h

theorem lastSegment_some {b l r : Chars} (h : splitFirstNl b = some (l, r)) :
    lastSegment b = lastSegment r := by
  unfold lastSegment
  rw [nlCount_some h]
  exact lastSegmentGo_succ_some (nlCount r + 1) b l r h

theorem emitsOf_none {b : Chars} (h : splitFirstNl b = none) :
    emitsOf b = [] := by
  unfold emitsOf
  rw [completeLines_none h]
  rfl

theorem emitsOf_some {b l r : Chars} (h : splitFirstNl b = some (l, r)) :
    emitsOf b = emitOf l ++ emitsOf r := by
  unfold emitsOf
  rw [completeLines_some h]
  simp

theorem drainGo_succ_none (fuel : Nat) (b : Chars)
    (h : splitFirstNl b = none) : drainGo (fuel + 1) b = (b, []) := by
  conv_lhs => rw [drainGo]
  rw [h]
  rfl

theorem drainGo_succ_some (fuel : Nat) (b l r : Chars)
    (h : splitFirstNl b = some (l, r)) :
    drainGo (fuel + 1) b =
      (match processLine (pyStripChars l) with
       | LineEffect.nothing => drainGo fuel r
       | LineEffect.emit s => ((drainGo fuel r).1, s :: (drainGo fuel r).2)
       | LineEffect.emitBreak s => (r, [s])
       | LineEffect.brk => (r, [])
       | LineEffect.crash => (r, [])) := by
  conv_lhs => rw [drainGo]
  rw [h]
  rfl

theorem drain_none {b : Chars} (h : splitFirstNl b = none) :
    drain b = (b, []) := drainGo_succ_none _ b h

theorem drain_nothing {b l r : Chars} (h : splitFirstNl b = some (l, r))
    (hp : processLine (pyStripChars l) = LineEffect.nothing) :
    drain b = drain r := by
  unfold drain
  rw [nlCount_some h, drainGo_succ_some (nlCount r + 1) b l r h, hp]

theorem drain_emit {b l r : Chars} {s : Chars}
    (h : splitFirstNl b = some (l, r))
    (hp : processLine (pyStripChars l) = LineEffect.emit s) :
    drain b = ((drain r).1, s :: (drain r).2) := by
  unfold drain
  rw [nlCount_some h, drainGo_succ_some (nlCount r + 1) b l r h, hp]

theorem benignLine_eq_false {l : Chars} {eff : LineEffect}
    (hp : processLine (pyStripChars l) = eff)
    (heff : (match eff with
      | LineEffect.nothing => false
      | LineEffect.emit _ => false
      | _ => true) = true) :
    benignLine l = false := by
  unfold benignLine
  rw [hp]
  cases eff <;> simp at heff ⊢

theorem emitOf_nothing {l : Chars}
    (hp : processLine (pyStripChars l) = LineEffect.nothing) :
    emitOf l = [] := by
  unfold emitOf
  rw [hp]

theorem emitOf_emit {l s : Chars}
    (hp : processLine (pyStripChars l) = LineEffect.emit s) :
    emitOf l = [s] := by
  unfold emitOf
  rw [hp]

theorem drain_benign : ∀ (n : Nat) (b : Chars), nlCount b ≤ n →
    (∀ l ∈ completeLines b, benignLine l = true) →
    drain b = (lastSegment b, emitsOf b) := by
  intro n
  induction n with
  | zero =>
    intro b hb _
    cases hsp : splitFirstNl b with
    | none =>
      rw [drain_none hsp, lastSegment_none hsp, emitsOf_none hsp]
    | some p =>
      obtain ⟨l, r⟩ := p
      have := nlCount_some hsp
      omega
  | succ n ih =>
    intro b hb hben
    cases hsp : splitFirstNl b with
    | none =>
      rw [drain_none hsp, lastSegment_none hsp, emitsOf_none hsp]
    | some p =>
      obtain ⟨l, r⟩ := p
      have hcnt := nlCount_some hsp
      have hben' : ∀ l' ∈ completeLines r, benignLine l' = true := by
        intro l' hl'
        refine hben l' ?_
        rw [completeLines_some hsp]
        exact List.mem_cons_of_mem _ hl'
      have hbenl : benignLine l = true := by
        refine hben l ?_
        rw [completeLines_some hsp]
        exact List.mem_cons_self _ _
      have ihr := ih r (by omega) hben'
      cases hp : processLine (pyStripChars l) with
      | nothing =>
        rw [drain_nothing hsp hp, ihr, lastSegment_some hsp,
          emitsOf_some hsp, emitOf_nothing hp]
        rfl
      | emit s =>
        rw [drain_emit hsp hp, ihr, lastSegment_some hsp,
          emitsOf_some hsp, emitOf_emit hp]
        rfl
      | emitBreak s =>
        rw [benignLine_eq_false hp (by rfl)] at hbenl
        simp at hbenl
      | brk =>
        rw [benignLine_eq_false hp (by rfl)] at hbenl
        simp at hbenl
      | crash =>
        rw [benignLine_eq_false hp (by rfl)] at hbenl
        simp at hbenl

theorem lastSegment_no_nl : ∀ (n : Nat) (b : Chars), nlCount b ≤ n →
    splitFirstNl (lastSegment b) = none := by
  intro n
  induction n with
  | zero =>
    intro b hb
    cases hsp : splitFirstNl b with
    | none => rw [lastSegment_none hsp]; exact hsp
    | some p =>
      obtain ⟨l, r⟩ := p
      have := nlCount_some hsp
      omega
  | succ n ih =>
    intro b hb
    cases hsp : splitFirstNl b with
    | none => rw [lastSegment_none hsp]; exact hsp
    | some p =>
      obtain ⟨l, r⟩ := p
      have hcnt := nlCount_some hsp
      rw [lastSegment_some hsp]
      exact ih r (by omega)

theorem completeLines_append : ∀ (n : Nat) (x y : Chars), nlCount x ≤ n →
    completeLines (x ++ y) =
      completeLines x ++ completeLines (lastSegment x ++ y) := by
  intro n
  induction n with
  | zero =>
    intro x y hx
    cases hsp : splitFirstNl x with
    | none =>
      rw [completeLines_none hsp, lastSegment_none hsp]
      rfl
    | some p =>
      obtain ⟨l, r⟩ := p
      have := nlCount_some hsp
      omega
  | succ n ih =>
    intro x y hx
    cases hsp : splitFirstNl x with
    | none =>
      rw [completeLines_none hsp, lastSegment_none hsp]
      rfl
    | some p =>
      obtain ⟨l, r⟩ := p
      have hcnt := nlCount_some hsp
      have hxy := splitFirstNl_append_some x y hsp
      rw [completeLines_some hxy, completeLines_some hsp,
        lastSegment_some hsp, ih r y (by omega)]
      rfl

theorem lastSegment_append : ∀ (n : Nat) (x y : Chars), nlCount x ≤ n →
    lastSegment (x ++ y) = lastSegment (lastSegment x ++ y) := by
  intro n
  induction n with
  | zero =>
    intro x y hx
    cases hsp : splitFirstNl x with
    | none => rw [lastSegment_none hsp]
    | some p =>
      obtain ⟨l, r⟩ := p
      have := nlCount_some hsp
      omega
  | succ n ih =>
    intro x y hx
    cases hsp : splitFirstNl x with
    | none => rw [lastSegment_none hsp]
    | some p =>
      obtain ⟨l, r⟩ := p
      have hcnt := nlCount_some hsp
      have hxy := splitFirstNl_append_some x y hsp
      rw [lastSegment_some hxy, lastSegment_some hsp]
      exact ih r y (by omega)

theorem emitsOf_append (x y : Chars) :
    emitsOf (x ++ y) = emitsOf x ++ emitsOf (lastSegment x ++ y) := by
  unfold emitsOf
  rw [completeLines_append (nlCount x) x y (le_refl _)]
  simp

theorem feedReads_benign : ∀ (rs : List Chars) (b : Chars),
    splitFirstNl b = none →
    (∀ l ∈ completeLines (b ++ rs.join), benignLine l = true) →
    feedReads b rs = (lastSegment (b ++ rs.join), emitsOf (b ++ rs.join)) := by
  intro rs
  induction rs with
  | nil =>
    intro b hb _
    have hb' : b ++ List.join [] = b := by simp
    rw [feedReads, hb', lastSegment_none hb, emitsOf_none hb]
  | cons r rs ih =>
    intro b hb hben
    have hassoc : b ++ List.join (r :: rs) = (b ++ r) ++ rs.join := by
      simp [List.join]
    rw [hassoc] at hben
    have hsplit := completeLines_append (nlCount (b ++ r)) (b ++ r) rs.join
      (le_refl _)
    have hben1 : ∀ l ∈ completeLines (b ++ r), benignLine l = true := by
      intro l hl
      refine hben l ?_
      rw [hsplit]
      exact List.mem_append.mpr (Or.inl hl)
    have hben2 : ∀ l ∈ completeLines (lastSegment (b ++ r) ++ rs.join),
        benignLine l = true := by
      intro l hl
      refine hben l ?_
      rw [hsplit]
      exact List.mem_append.mpr (Or.inr hl)
    have hdrain := drain_benign (nlCount (b ++ r)) (b ++ r) (le_refl _) hben1
    have hlast := lastSegment_no_nl (nlCount (b ++ r)) (b ++ r) (le_refl _)
    rw [feedReads, hdrain]
    dsimp only
    rw [ih (lastSegment (b ++ r)) hlast hben2, hassoc,
      lastSegment_append (nlCount (b ++ r)) (b ++ r) rs.join (le_refl _),
      emitsOf_append (b ++ r) rs.join]

/-- C9 amended: for byte streams none of whose complete lines break the
drain loop or raise (no `data: [DONE]` line, no terminal finish_reason, no
malformed-payload exception), the decoder emits the same chunk sequence
however the bytes are fragmented into reads — any fragmentation agrees with
delivering the whole stream in one read. -/
theorem c9_fragmentation_invariance (reads : List Chars)
    (h : ∀ l ∈ completeLines reads.join, benignLine l = true) :
    decodeOAI reads = decodeOAI [reads.join] := by
  have h0 : splitFirstNl ([] : Chars) = none := rfl
  have hjoin : List.join [reads.join] = reads.join := by simp
  have h1 := feedReads_benign reads [] h0 (by simpa using h)
  have h2 := feedReads_benign [reads.join] [] h0 (by
    rw [hjoin]
    simpa using h)
  unfold decodeOAI
  rw [h1, h2, hjoin]

/-- C9 counterexample: the `break` on a `data: [DONE]` line only leaves the
inner drain loop; when the frames after it arrive in the same read they stay
in the carry-over buffer and die in the single-line trailing handler, but
when they arrive as a later read they are processed and emitted — the two
fragmentations of the same bytes produce different outputs. -/
theorem c9_counterexample :
    strToChars ("data: [DONE]\n" ++
        "data: \x7b\"choices\":[\x7b\"delta\":\x7b\"content\":\"a\"\x7d\x7d]\x7d\ndata: \x7b\"choices\":[\x7b\"delta\":\x7b\"content\":\"b\"\x7d\x7d]\x7d\n") =
      strToChars "data: [DONE]\n" ++
        strToChars "data: \x7b\"choices\":[\x7b\"delta\":\x7b\"content\":\"a\"\x7d\x7d]\x7d\ndata: \x7b\"choices\":[\x7b\"delta\":\x7b\"content\":\"b\"\x7d\x7d]\x7d\n" ∧
    decodeOAI [strToChars "data: [DONE]\n",
        strToChars "data: \x7b\"choices\":[\x7b\"delta\":\x7b\"content\":\"a\"\x7d\x7d]\x7d\ndata: \x7b\"choices\":[\x7b\"delta\":\x7b\"content\":\"b\"\x7d\x7d]\x7d\n"] ≠
      decodeOAI [strToChars ("data: [DONE]\n" ++
        "data: \x7b\"choices\":[\x7b\"delta\":\x7b\"content\":\"a\"\x7d\x7d]\x7d\ndata: \x7b\"choices\":[\x7b\"delta\":\x7b\"content\":\"b\"\x7d\x7d]\x7d\n")] := by
  constructor
  · decide
  · decide

/-- Closed instance of the amended C9: a frame whose JSON is split across two
reads at an arbitrary position is rejoined by the carry-over buffer and emits
the same chunks as the whole stream in one read. -/
theorem c9_witness :
    (∀ l ∈ completeLines
        (List.join [strToChars "data: \x7b\"choices\":[\x7b\"delta\":\x7b\"con",
          strToChars "tent\":\"hi\"\x7d\x7d]\x7d\n"]),
      benignLine l = true) ∧
    decodeOAI [strToChars "data: \x7b\"choices\":[\x7b\"delta\":\x7b\"con",
        strToChars "tent\":\"hi\"\x7d\x7d]\x7d\n"] =
      decodeOAI [List.join
        [strToChars "data: \x7b\"choices\":[\x7b\"delta\":\x7b\"con",
          strToChars "tent\":\"hi\"\x7d\x7d]\x7d\n"]] :=
  ⟨by decide,
    c9_fragmentation_invariance
      [strToChars "data: \x7b\"choices\":[\x7b\"delta\":\x7b\"con",
        strToChars "tent\":\"hi\"\x7d\x7d]\x7d\n"]
      (by decide)⟩

end DeepSeekX








